import Mathlib

/-!
# Rotating log file writer (package logfile, file.go)

A shallow embedding of the rotation state of `FileHook` and of the operations
`NewFileHook`, `dealFormat`, `dealFiles`, `removeFiles`, `getNoPathFileName`,
`getCurrentFileName`, `openFile` and `Write`.

Modelling conventions.

* Go strings are Lean strings; `strings.Split` and `strconv.Atoi` work on the
  character lists of their arguments.
* `int` is the 64 bit integer type.  `currentIndex` is modelled by `Int` and its
  increment `+= 1` wraps as on `int` (`incrIndex`): the largest index is followed by
  `-2 ^ 63`.  `currentSize` and the byte counts are modelled by `Int` and their sums
  are not wrapped: the sum `currentSize + len(line)` leaves the range of `int64` only
  from a size within one record of `2 ^ 63`, and the statement on the rotation test
  carries that range as a hypothesis.  `strconv.Atoi` is modelled with the range
  check that `ParseUint` makes digit by digit.
* The file system and the clock are explicit: every operation receives the
  directory listing, the outcome of its system calls and the value of
  `time.Now().Format(h.Format)` (the period key) as arguments.
* `regexp.MatchString` is an argument of the scan and of the sweep; `regexpMatchString`
  models it on the patterns made of literal characters, ".", "[0-9]" and "?".
  `time.Time.Format` is modelled on the numeric elements of the reference layout and
  is undefined (`none`) on a layout holding another element.
* The lock of `Write` is not modelled: calls are taken one after the other.
-/

namespace Logfile

/-! ## strconv.Atoi and the verb `%v` of fmt for integers -/

/-- Error kinds of `strconv.Atoi`. -/
inductive NumError where
  | ErrSyntax
  | ErrRange
  deriving DecidableEq, Repr

/-- Largest value of `int` (64 bit). -/
def maxInt : Int := 2 ^ 63 - 1

/-- Largest value of `uint64`. -/
def maxUint64 : Nat := 18446744073709551615

/-- Value of an ASCII decimal digit, `none` for any other character
(`ch -= '0'; if ch > 9` in `Atoi`). -/
def digitVal (c : Char) : Option Nat :=
  if 48 ≤ c.toNat ∧ c.toNat ≤ 57 then some (c.toNat - 48) else none

/-- The digit loop `n = n*10 + int(ch)` of the fast path of `Atoi`, which reads the
strings shorter than 19 bytes: the value of a digit string with no range check, `none`
when a character is not a digit. -/
def parseDigits : List Char → Nat → Option Nat
  | [], acc => some acc
  | c :: cs, acc =>
    match digitVal c with
    | none => none
    | some d => parseDigits cs (acc * 10 + d)

/-- The loop of `strconv.ParseUint` in base 10 on 64 bits, `n` being the value read so
far.  A character that is not a digit ends the loop with a syntax error; a digit that
takes the value over `maxUint64` ends it with a range error, whatever follows. -/
def parseUintLoop : List Char → Nat → Except NumError Nat
  | [], n => Except.ok n
  | c :: cs, n =>
    match digitVal c with
    | none => Except.error NumError.ErrSyntax
    | some d =>
      if n ≥ maxUint64 / 10 + 1 then Except.error NumError.ErrRange
      else if n * 10 + d > maxUint64 then Except.error NumError.ErrRange
      else parseUintLoop cs (n * 10 + d)

/-- Model of `strconv.ParseUint(s, 10, 0)`: the empty string is a syntax error. -/
def ParseUint (cs : List Char) : Except NumError Nat :=
  match cs with
  | [] => Except.error NumError.ErrSyntax
  | _ :: _ => parseUintLoop cs 0

/-- Model of `strconv.Atoi` (base 10, 64 bit) by its general path `ParseInt(s, 10, 0)`:
the returned integer and the error.  The sign is picked off, `ParseUint` reads the
rest; a syntax error returns 0, a range error of `ParseUint` or a value that does not
fit `int` returns the nearest bound of `int` together with `ErrRange`.  The fast path
of `Atoi` gives the same result on the strings it reads: at most 18 digits fit `int`
(`Atoi_digits`). -/
def Atoi (s : String) : Int × Option NumError :=
  let signed : Bool × List Char :=
    match s.data with
    | [] => (false, [])
    | c :: rest =>
      if c = '-' then (true, rest) else if c = '+' then (false, rest) else (false, c :: rest)
  match ParseUint signed.2 with
  | Except.error NumError.ErrSyntax => (0, some NumError.ErrSyntax)
  | Except.error NumError.ErrRange =>
    if signed.1 then (-(2 ^ 63), some NumError.ErrRange) else (maxInt, some NumError.ErrRange)
  | Except.ok un =>
    if signed.1 then
      if (un : Int) > 2 ^ 63 then (-(2 ^ 63), some NumError.ErrRange) else (-(un : Int), none)
    else
      if (un : Int) ≥ 2 ^ 63 then (maxInt, some NumError.ErrRange) else ((un : Int), none)

/-- Rendering of an `int` by the verb `%v` of `fmt.Sprintf`: decimal, with a
leading minus sign for negative values. -/
def formatInt (i : Int) : String := toString i

/-! ## strings.Split on "." -/

/-- Model of `strings.Split(s, ".")` on the characters of `s`. -/
def splitDot : List Char → List (List Char)
  | [] => [[]]
  | c :: cs =>
    if c = '.' then [] :: splitDot cs
    else
      match splitDot cs with
      | [] => [[c]]
      | x :: xs => (c :: x) :: xs

/-- The expression `names[len(names)-1]` for `names := strings.Split(name, ".")`. -/
def lastName (name : String) : String :=
  String.mk ((splitDot name.data).getLast?.getD [])

/-! ## regexp.MatchString -/

/-- One character position of a pattern: a literal character, the wildcard "."
(any character but a newline) or the class "[0-9]". -/
inductive Atom where
  | lit (c : Char)
  | any
  | digit
  deriving DecidableEq, Repr

/-- Does the atom accept the character? -/
def Atom.accepts : Atom → Char → Bool
  | Atom.lit c, x => x == c
  | Atom.any, x => x != Char.ofNat 10
  | Atom.digit, x => (digitVal x).isSome

/-- Characters with a meaning of their own in the pattern syntax. -/
def isMeta (c : Char) : Bool :=
  c ∈ [Char.ofNat 92, '.', '+', '*', '?', '(', ')', '|', '[', ']', '^', '$', Char.ofNat 123, Char.ofNat 125]

/-- Reading of a pattern as a sequence of atoms, each with its "?" flag.  Covers the
patterns whose only operators are ".", "[0-9]" and a "?" after an atom, which is
what `dealFiles` and `removeFiles` build from a file name and a period key made of
ordinary characters and dots; `none` for any other pattern. -/
def parsePattern : List Char → Option (List (Atom × Bool))
  | [] => some []
  | '[' :: '0' :: '-' :: '9' :: ']' :: '?' :: rest => (parsePattern rest).map (fun l => (Atom.digit, true) :: l)
  | '[' :: '0' :: '-' :: '9' :: ']' :: rest => (parsePattern rest).map (fun l => (Atom.digit, false) :: l)
  | '.' :: '?' :: rest => (parsePattern rest).map (fun l => (Atom.any, true) :: l)
  | '.' :: rest => (parsePattern rest).map (fun l => (Atom.any, false) :: l)
  | c :: '?' :: rest => if isMeta c then none else (parsePattern rest).map (fun l => (Atom.lit c, true) :: l)
  | c :: rest => if isMeta c then none else (parsePattern rest).map (fun l => (Atom.lit c, false) :: l)

/-- Does a match of the atom sequence start at the head of the text? -/
def matchHere : List (Atom × Bool) → List Char → Bool
  | [], _ => true
  | (a, opt) :: rest, text =>
    (match text with
      | [] => false
      | x :: xs => a.accepts x && matchHere rest xs)
    || (opt && matchHere rest text)

/-- Does a match start anywhere in the text (the pattern is not anchored)? -/
def matchAnywhere (p : List (Atom × Bool)) : List Char → Bool
  | [] => matchHere p []
  | x :: xs => matchHere p (x :: xs) || matchAnywhere p xs

/-- Model of `regexp.MatchString(pattern, s)` with its error dropped, on the
patterns read by `parsePattern`. -/
def regexpMatchString (pattern s : String) : Bool :=
  match parsePattern pattern.data with
  | none => false
  | some p => matchAnywhere p s.data

/-! ## Configuration, directory entries and the hook -/

/-- The separator `string(os.PathSeparator)`. -/
def PathSeparator : String := "/"

/-- The struct `Config`. -/
structure Config where
  Level : Nat
  Path : String
  FileName : String
  Format : String
  MaxFileSize : Int
  IsLevelFile : Bool
  maxAge : Int
  isAP : Bool
  deriving DecidableEq, Repr

/-- An `os.FileInfo` as listed by `ioutil.ReadDir`: name, size in bytes, directory
flag and modification time. -/
structure FileInfo where
  Name : String
  Size : Int
  IsDir : Bool
  ModTime : Int
  deriving DecidableEq, Repr

/-- The struct `FileHook` without its mutex.  `file` is `none` for a nil `*os.File`
and the path of the open file otherwise. -/
structure FileHook extends Config where
  currentSize : Int
  currentIndex : Int
  currentFile : Option FileInfo
  file : Option String
  deriving DecidableEq, Repr

/-- The value `&FileHook{Config: c}` built by `NewFileHook`. -/
def FileHook.fresh (c : Config) : FileHook :=
  { toConfig := c, currentSize := 0, currentIndex := 0, currentFile := none, file := none }

/-- The method `getNoPathFileName`; `timeStr` is `time.Now().Format(h.Format)`. -/
def FileHook.getNoPathFileName (h : FileHook) (timeStr : String) : String :=
  if timeStr = "" then
    h.FileName ++ formatInt h.currentIndex
  else
    h.FileName ++ "." ++ timeStr ++ "." ++ formatInt h.currentIndex

/-- The method `getCurrentFileName`; `timeStr` is `time.Now().Format(h.Format)`. -/
def FileHook.getCurrentFileName (h : FileHook) (timeStr : String) : String :=
  if timeStr = "" then
    h.Path ++ PathSeparator ++ h.FileName ++ formatInt h.currentIndex
  else
    h.Path ++ PathSeparator ++ h.FileName ++ "." ++ timeStr ++ "." ++ formatInt h.currentIndex

/-- The method `getLinkName`. -/
def FileHook.getLinkName (h : FileHook) : String :=
  h.Path ++ PathSeparator ++ h.FileName

/-- The pattern `matchStr` built at the head of `dealFiles` and `removeFiles`. -/
def matchStr (FileName timeStr : String) : String :=
  if timeStr = "" then FileName ++ ".[0-9]?" else FileName ++ "." ++ timeStr ++ ".[0-9]?"

/-! ## dealFiles -/

/-- The value of type `int` (64 bit) that the result of an addition wraps to: the
representative of `x` modulo `2 ^ 64` between `-2 ^ 63` and `2 ^ 63 - 1`. -/
def wrapInt (x : Int) : Int :=
  (x + 9223372036854775808) % 18446744073709551616 - 9223372036854775808

/-- The statement `h.currentIndex += 1` on the type `int`. -/
def incrIndex (i : Int) : Int := wrapInt (i + 1)

/-- The index `strconv.Atoi(names[len(names)-1])` read from a directory entry; the
error of `Atoi` is printed by `dealFiles` and otherwise unused. -/
def parsedIndex (f : FileInfo) : Int := (Atoi (lastName f.Name)).1

/-- Body of the loop of `dealFiles` for one directory entry.  `MatchString` stands
for `regexp.MatchString` with its error dropped. -/
def FileHook.scanEntry (MatchString : String → String → Bool) (pattern : String)
    (h : FileHook) (f : FileInfo) : FileHook :=
  if MatchString pattern f.Name then
    if f.IsDir then h
    else if parsedIndex f > h.currentIndex then
      { h with currentIndex := parsedIndex f, currentFile := some f }
    else h
  else h

/-- The method `dealFiles`: `files` is the result of `ioutil.ReadDir(h.Path)` (empty
when the call fails) and `timeStr` is `time.Now().Format(h.Format)`. -/
def FileHook.dealFiles (h : FileHook) (MatchString : String → String → Bool)
    (timeStr : String) (files : List FileInfo) : FileHook :=
  let h1 := files.foldl (FileHook.scanEntry MatchString (matchStr h.FileName timeStr)) h
  match h1.currentFile with
  | none => { h1 with currentIndex := incrIndex h1.currentIndex, currentSize := 0 }
  | some f =>
    if f.Size ≥ h1.MaxFileSize then
      { h1 with currentIndex := incrIndex h1.currentIndex, currentSize := 0 }
    else
      { h1 with currentSize := f.Size }

/-! ## The file system seen by the writer -/

/-- Errors returned by the calls on `*os.File` and by `os.OpenFile`. -/
inductive Error where
  | ErrInvalid
  | OpenError
  | CloseError
  | WriteError
  deriving DecidableEq, Repr

/-- The part of the file system the writer acts on: the regular files by path with
their contents, and the symbolic links by path with their targets. -/
structure World where
  files : List (String × List UInt8)
  links : List (String × String)
  deriving DecidableEq, Repr

/-- Outcome of the system calls of one call of `openFile` or `Write`, and the clock
reading of that call. -/
structure Outcome where
  timeStr : String
  openFails : Bool
  lnFails : Bool
  closeFails : Bool
  writeFailsAfter : Option Nat
  deriving DecidableEq, Repr

/-- Content of the regular file at a path, `none` when there is no such file. -/
def World.content (w : World) (path : String) : Option (List UInt8) :=
  (w.files.find? (fun e => e.1 == path)).map (fun e => e.2)

/-- Effect of a successful `os.OpenFile(path, O_CREATE|O_APPEND|O_WRONLY, perm)`: the
file is created empty when it does not exist. -/
def World.create (w : World) (path : String) : World :=
  match w.content path with
  | some _ => w
  | none => { w with files := w.files ++ [(path, [])] }

/-- Effect of appending bytes through a handle opened with `O_APPEND`. -/
def World.append (w : World) (path : String) (bytes : List UInt8) : World :=
  { w with files := w.files.map (fun e => if e.1 == path then (e.1, e.2 ++ bytes) else e) }

/-- Effect of a successful `ln -snf target name`. -/
def World.symlink (w : World) (target name : String) : World :=
  { w with links := (name, target) :: w.links.filter (fun e => e.1 != name) }

/-- The method `linkFile`: runs `ln -snf`; its error is printed and dropped. -/
def FileHook.linkFile (h : FileHook) (o : Outcome) (w : World) : World :=
  if o.lnFails then w else w.symlink (h.getNoPathFileName o.timeStr) h.getLinkName

/-- The method `openFile`: the hook, the file system and the returned error.  On
failure `os.OpenFile` returns a nil file, which is stored in `h.file`. -/
def FileHook.openFile (h : FileHook) (o : Outcome) (w : World) : FileHook × World × Option Error :=
  if o.openFails then
    ({ h with file := none }, w, some Error.OpenError)
  else
    let h1 := { h with file := some (h.getCurrentFileName o.timeStr) }
    (h1, h1.linkFile o (w.create (h.getCurrentFileName o.timeStr)), none)

/-- The call `h.file.Close()`: the returned error. -/
def fileClose (file : Option String) (o : Outcome) : Option Error :=
  match file with
  | none => some Error.ErrInvalid
  | some _ => if o.closeFails then some Error.CloseError else none

/-- The call `h.file.Write(line)`: the file system, the byte count and the error.
A nil file gives `ErrInvalid`; a failing write may leave a part of the line in the
file. -/
def fileWrite (file : Option String) (o : Outcome) (line : List UInt8) (w : World) :
    World × Nat × Option Error :=
  match file with
  | none => (w, 0, some Error.ErrInvalid)
  | some path =>
    match o.writeFailsAfter with
    | none => (w.append path line, line.length, none)
    | some n => (w.append path (line.take n), min n line.length, some Error.WriteError)

/-! ## Write -/

/-- The test `h.currentSize+int64(len(line)) >= h.MaxFileSize` of `Write`. -/
def FileHook.shouldRotate (h : FileHook) (line : List UInt8) : Bool :=
  decide (h.currentSize + (line.length : Int) ≥ h.MaxFileSize)

/-- The first statement of `Write`, the rotation block: when the test holds the size
is reset, the file is closed, the index is incremented and `openFile` is called with
its error dropped. -/
def FileHook.rotateIfFull (h : FileHook) (o : Outcome) (line : List UInt8) (w : World) :
    FileHook × World :=
  if h.shouldRotate line then
    let h1 := { h with currentSize := 0 }
    let _err := fileClose h1.file o
    let h2 := { h1 with currentIndex := incrIndex h1.currentIndex }
    let r := h2.openFile o w
    (r.1, r.2.1)
  else
    (h, w)

/-- The method `Write` (the lock is held for the whole call): the hook, the file
system and the returned error. -/
def FileHook.Write (h : FileHook) (o : Outcome) (line : List UInt8) (w : World) :
    FileHook × World × Option Error :=
  let r := h.rotateIfFull o line w
  let res := fileWrite r.1.file o line r.2
  match res.2.2 with
  | some e => (r.1, res.1, some e)
  | none => ({ r.1 with currentSize := r.1.currentSize + (res.2.1 : Int) }, res.1, none)

/-- The bytes of an ASCII string, as `[]byte(s)`. -/
def bytes (s : String) : List UInt8 := s.data.map (fun c => UInt8.ofNat c.toNat)

/-- Outcome of a call in which every system call succeeds, at a given period key. -/
def Outcome.ok (timeStr : String) : Outcome :=
  { timeStr := timeStr, openFails := false, lnFails := false, closeFails := false,
    writeFailsAfter := none }

/-! ## Predicates and sample data used by the statements -/

/-- The two tests `dealFiles` applies to a directory entry before reading its index:
the name matches the pattern and the entry is not a directory. -/
def matchesRegular (MatchString : String → String → Bool) (pattern : String) (f : FileInfo) : Bool :=
  MatchString pattern f.Name && !f.IsDir

/-- State in which `NewFileHook` leaves the hook and the file system when the
directory is empty and every call succeeds: `dealFiles` on the empty listing followed
by `openFile`. -/
def startEmpty (c : Config) (timeStr : String) : FileHook × World :=
  let r := ((FileHook.fresh c).dealFiles regexpMatchString timeStr []).openFile
    (Outcome.ok timeStr) { files := [], links := [] }
  (r.1, r.2.1)

/-- Successive calls of `Write`, every system call succeeding. -/
def writeAll (timeStr : String) : List (List UInt8) → FileHook × World → FileHook × World
  | [], s => s
  | line :: rest, s =>
    let r := s.1.Write (Outcome.ok timeStr) line s.2
    writeAll timeStr rest (r.1, r.2.1)

/-- Path of the log file of a given index for a configuration and a period key. -/
def pathOfIndex (c : Config) (timeStr : String) (index : Int) : String :=
  ({ FileHook.fresh c with currentIndex := index }).getCurrentFileName timeStr

/-- A configuration with the default path and file name and a limit of 10 bytes. -/
def smallConfig : Config :=
  { Level := 0, Path := "./log", FileName := "file.log", Format := "20060102",
    MaxFileSize := 10, IsLevelFile := false, maxAge := 604800, isAP := false }

/-- The three records of the scenario. -/
def threeRecords : List (List UInt8) := [bytes "12345", bytes "67890", bytes "X"]

/-- A regular file of the period 20240615 with index 0 and 5 bytes. -/
def indexZeroFile : FileInfo :=
  { Name := "file.log.20240615.0", Size := 5, IsDir := false, ModTime := 0 }

/-- A regular file of the period 20240615 with a given index and size. -/
def logEntry (index : Int) (size : Int) : FileInfo :=
  { Name := "file.log.20240615." ++ formatInt index, Size := size, IsDir := false, ModTime := 0 }

/-- A directory whose name matches the pattern of the period 20240615. -/
def dirEntry : FileInfo :=
  { Name := "file.log.20240615.9", Size := 4096, IsDir := true, ModTime := 0 }

/-- A regular file whose name does not match the pattern of the period 20240615. -/
def strayEntry : FileInfo :=
  { Name := "notes.txt", Size := 120, IsDir := false, ModTime := 0 }

/-- A hook on the default file name `file.log` at a given index, before any file is
open. -/
def hookAt (index : Int) : FileHook :=
  { FileHook.fresh smallConfig with currentIndex := index }

/-- A hook with 8 accounted bytes at index 1, its file open, under a limit of 10. -/
def busyHook : FileHook :=
  { FileHook.fresh smallConfig with
    currentSize := 8, currentIndex := 1, file := some "./log/file.log.20240615.1" }

/-- A call in which `os.OpenFile` fails; the other system calls succeed. -/
def openFailure : Outcome :=
  { timeStr := "20240615", openFails := true, lnFails := false, closeFails := false,
    writeFailsAfter := none }

/-- A file system holding the current file of `busyHook` with its 8 bytes. -/
def busyWorld : World :=
  { files := [("./log/file.log.20240615.1", bytes "abcdefgh")], links := [] }

/-! ## removeFiles -/

/-- Body of the loop of `removeFiles` for one directory entry: `removed` lists the
entries handed to `os.Remove` so far (the error of `os.Remove` is dropped), `now` is
the reading of `time.Now()` and the test is `!f.ModTime().Add(h.maxAge).After(now)`. -/
def sweepEntry (MatchString : String → String → Bool) (pattern : String) (maxAge now : Int)
    (removed : List FileInfo) (f : FileInfo) : List FileInfo :=
  if MatchString pattern f.Name then
    if f.IsDir then removed
    else if ¬ (f.ModTime + maxAge > now) then removed ++ [f]
    else removed
  else removed

/-- The method `removeFiles`, one sweep: the entries of the listing handed to
`os.Remove`, in order.  `files` is the result of `ioutil.ReadDir(h.Path)`, `timeStr` is
`time.Now().Format(h.Format)` and the clock readings of the sweep are one instant
`now`. -/
def FileHook.removeFiles (h : FileHook) (MatchString : String → String → Bool)
    (timeStr : String) (now : Int) (files : List FileInfo) : List FileInfo :=
  files.foldl (sweepEntry MatchString (matchStr h.FileName timeStr) h.maxAge now) []

/-! ## Sequences of calls of Write -/

/-- What one call of `Write` in a sequence did: whether its test triggered a rotation,
whether that rotation opened the new file, and the error it returned. -/
structure Step where
  rotated : Bool
  reopened : Bool
  err : Option Error
  deriving DecidableEq, Repr

/-- Successive calls of `Write`, each with the outcome of its system calls: the hook
and the file system after the last call. -/
def writes : List (Outcome × List UInt8) → FileHook → World → FileHook × World
  | [], h, w => (h, w)
  | (o, line) :: rest, h, w => writes rest (h.Write o line w).1 (h.Write o line w).2.1

/-- The record of each call of a sequence of calls of `Write`, in order. -/
def trace : List (Outcome × List UInt8) → FileHook → World → List Step
  | [], _, _ => []
  | (o, line) :: rest, h, w =>
    { rotated := h.shouldRotate line,
      reopened := h.shouldRotate line && !o.openFails,
      err := (h.Write o line w).2.2 } ::
      trace rest (h.Write o line w).1 (h.Write o line w).2.1

/-! ## dealFormat and time.Time.Format -/

/-- Model of `strings.ReplaceAll(s, old, new)` for a two character `old` made of "%"
and a letter: the occurrences are replaced from left to right without overlap. -/
def replaceToken (letter : Char) (new : List Char) : List Char → List Char
  | [] => []
  | [a] => [a]
  | a :: b :: rest =>
    if a = '%' ∧ b = letter then new ++ replaceToken letter new rest
    else a :: replaceToken letter new (b :: rest)

/-- The six replacements of the method `dealFormat` on the characters of `h.Format`. -/
def dealFormatChars (l : List Char) : List Char :=
  replaceToken 'S' "05".data (replaceToken 'M' "04".data (replaceToken 'H' "15".data
    (replaceToken 'd' "02".data (replaceToken 'm' "01".data (replaceToken 'Y' "2006".data l)))))

/-- The method `dealFormat`: the new value of `h.Format`. -/
def dealFormat (format : String) : String := String.mk (dealFormatChars format.data)

/-- The fields of a `time.Time` read by the modelled layout elements. -/
structure Time where
  Year : Nat
  Month : Nat
  Day : Nat
  Hour : Nat
  Minute : Nat
  Second : Nat
  deriving DecidableEq, Repr

/-- Model of `appendInt(b, x, width)` of package time for a non-negative `x`: decimal
digits, padded with zeros on the left up to `width`. -/
def appendInt (x width : Nat) : List Char :=
  List.replicate (width - (Nat.toDigits 10 x).length) '0' ++ Nat.toDigits 10 x

/-- The numeric elements of the reference layout: 2006, 06, 01, 1, 02, 2, 15, 03, 3,
04, 4, 05, 5. -/
inductive Std where
  | LongYear
  | Year
  | ZeroMonth
  | NumMonth
  | ZeroDay
  | Day
  | Hour
  | ZeroHour12
  | Hour12
  | ZeroMinute
  | Minute
  | ZeroSecond
  | Second
  deriving DecidableEq, Repr

/-- The text `appendFormat` writes for a layout element. -/
def Time.emit (t : Time) : Std → List Char
  | Std.LongYear => appendInt t.Year 4
  | Std.Year => appendInt (t.Year % 100) 2
  | Std.ZeroMonth => appendInt t.Month 2
  | Std.NumMonth => appendInt t.Month 0
  | Std.ZeroDay => appendInt t.Day 2
  | Std.Day => appendInt t.Day 0
  | Std.Hour => appendInt t.Hour 2
  | Std.ZeroHour12 => appendInt (if t.Hour % 12 = 0 then 12 else t.Hour % 12) 2
  | Std.Hour12 => appendInt (if t.Hour % 12 = 0 then 12 else t.Hour % 12) 0
  | Std.ZeroMinute => appendInt t.Minute 2
  | Std.Minute => appendInt t.Minute 0
  | Std.ZeroSecond => appendInt t.Second 2
  | Std.Second => appendInt t.Second 0

/-- Does the text start with the given characters? -/
def startsWith : List Char → List Char → Bool
  | [], _ => true
  | _ :: _, [] => false
  | a :: as, b :: bs => a == b && startsWith as bs

/-- Is the head of the layout a "." or "," followed by a run of 0 or of 9 that is not
followed by a digit (the fractional seconds of `nextStdChunk`)? -/
def startsFraction (l : List Char) : Bool :=
  match l with
  | sep :: d :: rest =>
    (sep == '.' || sep == ',') && (d == '0' || d == '9') &&
      (match rest.dropWhile (fun x => x == d) with
        | [] => true
        | x :: _ => (digitVal x).isNone)
  | _ => false

/-- Does a layout element that is not modelled start at the head of the layout: the
names of months and weekdays, the time zone, AM and PM, the day of the year, the day
padded with a space, the fractional seconds? -/
def startsUnmodelled (l : List Char) : Bool :=
  startsWith "Jan".data l || startsWith "Mon".data l || startsWith "MST".data l ||
  startsWith "PM".data l || startsWith "pm".data l || startsWith "-07".data l ||
  startsWith "Z07".data l || startsWith "002".data l || startsWith "__2".data l ||
  (startsWith "_2".data l && !startsWith "_2006".data l) || startsFraction l

/-- The numeric layout element at the head of the layout, with its length, as found
by `nextStdChunk`; `none` when the head is an ordinary character. -/
def stdAt (l : List Char) : Option (Std × Nat) :=
  if startsWith "2006".data l then some (Std.LongYear, 4)
  else if startsWith "01".data l then some (Std.ZeroMonth, 2)
  else if startsWith "02".data l then some (Std.ZeroDay, 2)
  else if startsWith "03".data l then some (Std.ZeroHour12, 2)
  else if startsWith "04".data l then some (Std.ZeroMinute, 2)
  else if startsWith "05".data l then some (Std.ZeroSecond, 2)
  else if startsWith "06".data l then some (Std.Year, 2)
  else if startsWith "15".data l then some (Std.Hour, 2)
  else if startsWith "1".data l then some (Std.NumMonth, 1)
  else if startsWith "2".data l then some (Std.Day, 1)
  else if startsWith "3".data l then some (Std.Hour12, 1)
  else if startsWith "4".data l then some (Std.Minute, 1)
  else if startsWith "5".data l then some (Std.Second, 1)
  else none

/-- The loop of `appendFormat` over the layout: `skip` counts the characters of the
element in progress that are still to be passed.  The result is `none` when the layout
holds an element that is not modelled. -/
def formatLayout (t : Time) : List Char → Nat → Option (List Char)
  | [], _ => some []
  | _ :: rest, skip + 1 => formatLayout t rest skip
  | c :: rest, 0 =>
    if startsUnmodelled (c :: rest) then none
    else
      match stdAt (c :: rest) with
      | some (s, n) => (formatLayout t rest (n - 1)).map (fun out => t.emit s ++ out)
      | none => (formatLayout t rest 0).map (fun out => c :: out)

/-- Model of `t.Format(layout)` on the layouts whose elements are numeric: `none`
when the layout holds an element that is not modelled. -/
def Time.Format (t : Time) (layout : String) : Option String :=
  (formatLayout t layout.data 0).map String.mk

/-- The period key computed from a pattern: `dealFormat` followed by `Format`. -/
def periodKey (t : Time) (pattern : String) : Option String :=
  t.Format (dealFormat pattern)

/-- The function `time.Now().Format` at the instant `t`, as a total function; it is
used on modelled layouts only. -/
def clockAt (t : Time) (layout : String) : String := (t.Format layout).getD ""

/-! ## NewFileHook -/

/-- The default `defaultMaxFileSize`, 10 MiB. -/
def defaultMaxFileSize : Int := 10485760

/-- The default `defaultPath`. -/
def defaultPath : String := "./log"

/-- The default `defaultFileName`. -/
def defaultFileName : String := "file.log"

/-- The default `defaultFormat`. -/
def defaultFormat : String := "%Y%m%d"

/-- The default `defaultMaxAge`, 7 days in nanoseconds. -/
def defaultMaxAge : Int := 7 * 24 * 3600 * 1000000000

/-- The five tests at the head of `NewFileHook`: the unset fields of the
configuration take their defaults. -/
def Config.withDefaults (c : Config) : Config :=
  let c1 := if c.Path = "" then { c with Path := defaultPath } else c
  let c2 := if c1.FileName = "" then { c1 with FileName := defaultFileName } else c1
  let c3 := if c2.Format = "" then { c2 with Format := defaultFormat } else c2
  let c4 := if c3.MaxFileSize ≤ 0 then { c3 with MaxFileSize := defaultMaxFileSize } else c3
  if c4.maxAge ≤ 0 then { c4 with maxAge := defaultMaxAge } else c4

/-- Errors of `dealPath`. -/
inductive PathError where
  | MkdirError
  | PathIsFile
  deriving DecidableEq, Repr

/-- Outcome of the system calls of `NewFileHook`: `os.Stat(c.Path)` (`none` when it
fails, the directory flag otherwise), `os.MkdirAll`, the listing read by
`ioutil.ReadDir`, `os.OpenFile` and the command `ln`. -/
structure StartOutcome where
  pathStat : Option Bool
  mkdirFails : Bool
  files : List FileInfo
  openFails : Bool
  lnFails : Bool
  deriving DecidableEq, Repr

/-- The method `dealPath`. -/
def Config.dealPath (_c : Config) (s : StartOutcome) : Option PathError :=
  match s.pathStat with
  | none => if s.mkdirFails then some PathError.MkdirError else none
  | some isDir => if isDir then none else some PathError.PathIsFile

/-- The function `path.IsAbs`. -/
def isAbs (p : String) : Bool := p.data.head? == some '/'

/-- The method `dealLogFile`: `dealFormat` then `dealFiles`; `now` is the function
`time.Now().Format`. -/
def FileHook.dealLogFile (h : FileHook) (now : String → String)
    (MatchString : String → String → Bool) (files : List FileInfo) : FileHook :=
  let h1 : FileHook := { h with Format := dealFormat h.Format }
  h1.dealFiles MatchString (now h1.Format) files

/-- The function `NewFileHook`: an error of `dealPath` returns no hook; otherwise the
hook is returned together with the error of `openFile`.  `now` is the function
`time.Now().Format`; the sweeper started at the end runs `removeFiles` on its own. -/
def NewFileHook (now : String → String) (MatchString : String → String → Bool)
    (s : StartOutcome) (c : Config) (w : World) :
    Except PathError (FileHook × World × Option Error) :=
  let c1 := c.withDefaults
  match c1.dealPath s with
  | some e => Except.error e
  | none =>
    let c2 := { c1 with isAP := isAbs c1.Path }
    let h := (FileHook.fresh c2).dealLogFile now MatchString s.files
    Except.ok (h.openFile
      { timeStr := now h.Format, openFails := s.openFails, lnFails := s.lnFails,
        closeFails := false, writeFailsAfter := none } w)

/-- The zero value `Config{}`. -/
def zeroConfig : Config :=
  { Level := 0, Path := "", FileName := "", Format := "", MaxFileSize := 0,
    IsLevelFile := false, maxAge := 0, isAP := false }

/-- The instant 15 June 2024, 09:05:07. -/
def sampleTime : Time :=
  { Year := 2024, Month := 6, Day := 15, Hour := 9, Minute := 5, Second := 7 }

/-- A start in which the directory exists and is empty and every call succeeds. -/
def emptyStart : StartOutcome :=
  { pathStat := some true, mkdirFails := false, files := [], openFails := false, lnFails := false }

/-- The file system before anything is written. -/
def emptyWorld : World := { files := [], links := [] }

/-- A log file of the period 20240615 last modified at the instant 100. -/
def expiredEntry : FileInfo :=
  { Name := "file.log.20240615.1", Size := 10, IsDir := false, ModTime := 100 }

/-- A listing of the period 20240615: an expired log file, a recent one, an expired
directory with a matching name and an expired stray file. -/
def sweepListing : List FileInfo :=
  [expiredEntry,
   { Name := "file.log.20240615.2", Size := 4, IsDir := false, ModTime := 900 },
   { Name := "file.log.20240615.9", Size := 4096, IsDir := true, ModTime := 100 },
   { Name := "notes.txt", Size := 120, IsDir := false, ModTime := 100 }]

/-- Three calls in which every system call succeeds: a record of 10 bytes, then two
records of 1 byte. -/
def recoveryCalls : List (Outcome × List UInt8) :=
  [(Outcome.ok "20240615", bytes "0123456789"), (Outcome.ok "20240615", bytes "a"),
   (Outcome.ok "20240615", bytes "b")]

/-- Two calls in which `os.OpenFile` would fail: a record of 1 byte, then one of 12
bytes, which triggers a rotation. -/
def failingCalls : List (Outcome × List UInt8) :=
  [(openFailure, bytes "a"), (openFailure, bytes "0123456789ab")]

/-- Three calls with records shorter than 10 bytes; the open of the last one fails. -/
def shortCalls : List (Outcome × List UInt8) :=
  [(Outcome.ok "20240615", bytes "12345"), (Outcome.ok "20240615", bytes "6789"),
   (openFailure, bytes "abc")]

/-- A start on a directory holding two log files of the period 20240615. -/
def resumedStart : StartOutcome :=
  { pathStat := some true, mkdirFails := false, files := [logEntry 1 10, logEntry 2 4],
    openFails := false, lnFails := false }

/-- The file system holding the two log files of `resumedStart`. -/
def resumedWorld : World :=
  { files := [("./log/file.log.20240615.1", bytes "0123456789"),
              ("./log/file.log.20240615.2", bytes "abcd")], links := [] }

/-- The hook returned by `NewFileHook` on `resumedStart`: index 2 resumed with its 4
bytes. -/
def resumedHook : FileHook :=
  { FileHook.fresh smallConfig with
    currentSize := 4, currentIndex := 2, currentFile := some (logEntry 2 4),
    file := some "./log/file.log.20240615.2" }

/-- The file system after `NewFileHook` on `resumedStart`: the link is in place. -/
def resumedLinked : World :=
  { resumedWorld with links := [("./log/file.log", "file.log.20240615.2")] }

/-- A record of 12 bytes, longer than the limit of `smallConfig`. -/
def longRecord : List UInt8 := bytes "0123456789ab"

/-! ## The period key as the specification words it -/

/-- Replacement of the tokens "%" + letter listed in the table by their texts, all at
once from left to right; every other character is copied. -/
def substTokens (table : List (Char × List Char)) : List Char → List Char
  | [] => []
  | [a] => [a]
  | a :: b :: rest =>
    if a = '%' then
      match table.lookup b with
      | some text => text ++ substTokens table rest
      | none => a :: substTokens table (b :: rest)
    else a :: substTokens table (b :: rest)

/-- The six tokens with the element of the reference layout each one stands for. -/
def layoutTable : List (Char × List Char) :=
  [('Y', "2006".data), ('m', "01".data), ('d', "02".data), ('H', "15".data),
   ('M', "04".data), ('S', "05".data)]

/-- The six tokens with their values at the instant `t`: the year on 4 digits and
the month, day, hour, minute and second on 2 digits. -/
def valueTable (t : Time) : List (Char × List Char) :=
  [('Y', appendInt t.Year 4), ('m', appendInt t.Month 2), ('d', appendInt t.Day 2),
   ('H', appendInt t.Hour 2), ('M', appendInt t.Minute 2), ('S', appendInt t.Second 2)]

/-- The period key as the specification words it: each token replaced by its value
at `t`, every other character copied through unchanged. -/
def expectedKey (t : Time) (pattern : String) : String :=
  String.mk (substTokens (valueTable t) pattern.data)

/-- Characters that can take part in an element of the reference layout: the digits,
the underscore and the letters J, M, P, Z, p. -/
def isLayoutChar (c : Char) : Bool :=
  (digitVal c).isSome || c ∈ ['_', 'J', 'M', 'P', 'Z', 'p']

/-- No character of the pattern outside the six tokens is a digit, an underscore or
one of the letters J, M, P, Z, p. -/
def otherCharsPlain : List Char → Bool
  | [] => true
  | [a] => !isLayoutChar a
  | a :: b :: rest =>
    if a = '%' then
      match layoutTable.lookup b with
      | some _ => otherCharsPlain rest
      | none => otherCharsPlain (b :: rest)
    else !isLayoutChar a && otherCharsPlain (b :: rest)

/-! ## Matching as the specification words it -/

/-- The name with its trailing ".<integer>" component stripped; `none` when the name
does not end in a dot followed by at least one digit. -/
def stripIndex (name : List Char) : Option (List Char) :=
  match name.reverse.dropWhile (fun c => (digitVal c).isSome) with
  | '.' :: rest =>
    if name.reverse.takeWhile (fun c => (digitVal c).isSome) = [] then none else some rest.reverse
  | _ => none

/-- The expected first part of a name: `baseName.periodKey`, or `baseName` alone when
the period key is empty. -/
def expectedStem (baseName periodKey : String) : String :=
  if periodKey = "" then baseName else baseName ++ "." ++ periodKey

/-- The match as the specification words it: the name, with its trailing ".<integer>"
stripped, equals the expected first part. -/
def namedForPeriod (baseName periodKey name : String) : Bool :=
  stripIndex name.data == some (expectedStem baseName periodKey).data

/-- Characters read literally or as the wildcard by the pattern: every character
that is not an operator, and the dot. -/
def isOrdinary (c : Char) : Bool := !isMeta c || c == '.'

/-- The atom a pattern character of a file name is read as: the wildcard for a dot,
the character itself otherwise. -/
def patternAtom (c : Char) : Atom × Bool :=
  if c = '.' then (Atom.any, false) else (Atom.lit c, false)

/-- A regular file of the period 20240615 whose last component is not a number. -/
def tmpEntry : FileInfo :=
  { Name := "file.log.20240615.tmp", Size := 3, IsDir := false, ModTime := 100 }

/-- A regular file of the period 20240615 whose index is the largest `int`, with 12
bytes, over the limit of 10. -/
def lastIndexEntry : FileInfo :=
  { Name := "file.log.20240615.9223372036854775807", Size := 12, IsDir := false, ModTime := 100 }

/-- A regular file of the period 20240615 whose index is the largest `int`, with 8
bytes, under the limit of 10. -/
def lastOpenEntry : FileInfo :=
  { Name := "file.log.20240615.9223372036854775807", Size := 8, IsDir := false, ModTime := 100 }

/-- A start on a directory holding `lastIndexEntry`, every call succeeding. -/
def lastFullStart : StartOutcome :=
  { pathStat := some true, mkdirFails := false, files := [lastIndexEntry], openFails := false,
    lnFails := false }

/-- A start on a directory holding `lastOpenEntry`, every call succeeding. -/
def lastStart : StartOutcome :=
  { pathStat := some true, mkdirFails := false, files := [lastOpenEntry], openFails := false,
    lnFails := false }

/-- The file system holding the file of `lastOpenEntry` with its 8 bytes. -/
def lastWorld : World :=
  { files := [("./log/file.log.20240615.9223372036854775807", bytes "abcdefgh")], links := [] }

/-- The hook returned by `NewFileHook` on `lastStart`: the largest index resumed with
its 8 bytes. -/
def lastHook : FileHook :=
  { FileHook.fresh smallConfig with
    currentSize := 8, currentIndex := 9223372036854775807, currentFile := some lastOpenEntry,
    file := some "./log/file.log.20240615.9223372036854775807" }

/-- The file system after `NewFileHook` on `lastStart`: the link is in place. -/
def lastLinked : World :=
  { lastWorld with links := [("./log/file.log", "file.log.20240615.9223372036854775807")] }

/-- A file system in which a file of index 2 of the period 20240615 already holds four
bytes. -/
def occupiedWorld : World :=
  { files := [("./log/file.log.20240615.2", bytes "OLD ")], links := [] }

/-! ## Decimal rendering and parsing -/

theorem digitVal_digitChar : ∀ d, d < 10 → digitVal (Nat.digitChar d) = some d := by decide

theorem toDigitsCore_acc (fuel : Nat) : ∀ (n : Nat) (ds : List Char),
    Nat.toDigitsCore 10 fuel n ds = Nat.toDigitsCore 10 fuel n [] ++ ds := by
  induction fuel with
  | zero => intro n ds; simp [Nat.toDigitsCore]
  | succ fuel ih =>
    intro n ds
    simp only [Nat.toDigitsCore]
    split
    · simp
    · rw [ih (n / 10) (Nat.digitChar (n % 10) :: ds), ih (n / 10) [Nat.digitChar (n % 10)]]
      simp

theorem parseDigits_append (l : List Char) (c : Char) : ∀ acc,
    parseDigits (l ++ [c]) acc =
      (parseDigits l acc).bind (fun v => (digitVal c).map (fun d => v * 10 + d)) := by
  induction l with
  | nil =>
    intro acc
    simp only [List.nil_append, parseDigits]
    cases digitVal c <;> simp [parseDigits]
  | cons x xs ih =>
    intro acc
    simp only [List.cons_append, parseDigits]
    cases digitVal x with
    | none => simp
    | some d => simp [ih]

theorem parseDigits_toDigitsCore (fuel : Nat) : ∀ n, n < fuel →
    parseDigits (Nat.toDigitsCore 10 fuel n []) 0 = some n := by
  induction fuel with
  | zero => intro n hn; omega
  | succ fuel ih =>
    intro n hn
    simp only [Nat.toDigitsCore]
    split
    · rename_i h0
      have hlt : n % 10 < 10 := Nat.mod_lt _ (by decide)
      simp only [parseDigits, digitVal_digitChar _ hlt]
      have : n % 10 = n := by omega
      simp [this]
    · rename_i h0
      have hlt : n % 10 < 10 := Nat.mod_lt _ (by decide)
      rw [toDigitsCore_acc, parseDigits_append, ih (n / 10) (by omega), digitVal_digitChar _ hlt]
      simp
      omega

theorem parseDigits_isDigit (l : List Char) : ∀ acc v, parseDigits l acc = some v →
    ∀ c ∈ l, (digitVal c).isSome = true := by
  induction l with
  | nil => intro acc v _ c hc; simp at hc
  | cons x xs ih =>
    intro acc v h c hc
    simp only [parseDigits] at h
    cases hx : digitVal x with
    | none => simp [hx] at h
    | some d =>
      simp only [hx] at h
      rcases List.mem_cons.1 hc with rfl | hc
      · simp [hx]
      · exact ih _ _ h c hc

theorem toDigits_ne_nil (n : Nat) : Nat.toDigits 10 n ≠ [] := by
  unfold Nat.toDigits
  simp only [Nat.toDigitsCore]
  split
  · simp
  · rw [toDigitsCore_acc]; simp

theorem formatInt_data (n : Nat) : (formatInt (n : Int)).data = Nat.toDigits 10 n := rfl

theorem parseDigits_ge (l : List Char) : ∀ acc v, parseDigits l acc = some v → acc ≤ v := by
  induction l with
  | nil => intro acc v h; simp only [parseDigits, Option.some.injEq] at h; omega
  | cons x xs ih =>
    intro acc v h
    simp only [parseDigits] at h
    cases hx : digitVal x with
    | none => simp [hx] at h
    | some d =>
      simp only [hx] at h
      have := ih _ _ h
      omega

theorem parseUintLoop_of_parseDigits (l : List Char) : ∀ acc v, parseDigits l acc = some v →
    v ≤ maxUint64 → parseUintLoop l acc = Except.ok v := by
  induction l with
  | nil => intro acc v h _; simp only [parseDigits, Option.some.injEq] at h; simp [parseUintLoop, h]
  | cons x xs ih =>
    intro acc v h hv
    simp only [parseDigits] at h
    cases hx : digitVal x with
    | none => simp [hx] at h
    | some d =>
      simp only [hx] at h
      have hge := parseDigits_ge _ _ _ h
      simp only [maxUint64] at hv
      have h1 : ¬ (acc ≥ maxUint64 / 10 + 1) := by simp only [maxUint64]; omega
      have h2 : ¬ (acc * 10 + d > maxUint64) := by simp only [maxUint64]; omega
      simp only [parseUintLoop, hx, if_neg h1, if_neg h2]
      exact ih _ _ h (by simp only [maxUint64]; omega)

theorem Atoi_digits (cs : List Char) (n : Nat) (hp : parseDigits cs 0 = some n)
    (hne : cs ≠ []) (hn : (n : Int) < 2 ^ 63) : Atoi (String.mk cs) = ((n : Int), none) := by
  cases cs with
  | nil => exact absurd rfl hne
  | cons c rest =>
    have hd := parseDigits_isDigit _ _ _ hp c (List.mem_cons_self _ _)
    have h1 : c ≠ '-' := by
      rintro rfl
      exact absurd hd (by decide)
    have h2 : c ≠ '+' := by
      rintro rfl
      exact absurd hd (by decide)
    have hge : n < 9223372036854775808 := by omega
    have hu := parseUintLoop_of_parseDigits _ _ _ hp (by simp only [maxUint64]; omega)
    simp [Atoi, h1, h2, ParseUint, hu, hge]

theorem Atoi_formatInt (k : Int) (h0 : 0 ≤ k) (hk : k < 2 ^ 63) :
    Atoi (String.mk (formatInt k).data) = (k, none) := by
  obtain ⟨n, rfl⟩ := Int.eq_ofNat_of_zero_le h0
  rw [formatInt_data]
  exact Atoi_digits _ n (parseDigits_toDigitsCore _ _ (Nat.lt_succ_self n)) (toDigits_ne_nil n) hk

theorem splitDot_ne_nil (cs : List Char) : splitDot cs ≠ [] := by
  cases cs with
  | nil => simp [splitDot]
  | cons c cs =>
    simp only [splitDot]
    split
    · simp
    · split <;> simp

theorem splitDot_no_dot (cs : List Char) (h : '.' ∉ cs) : splitDot cs = [cs] := by
  induction cs with
  | nil => rfl
  | cons c cs ih =>
    have hc : c ≠ '.' := fun e => h (e ▸ List.mem_cons_self _ _)
    have hcs : '.' ∉ cs := fun e => h (List.mem_cons_of_mem _ e)
    simp [splitDot, hc, ih hcs]

theorem splitDot_append_dot (xs ds : List Char) :
    ∃ pre, splitDot (xs ++ '.' :: ds) = pre ++ splitDot ds ∧ pre ≠ [] := by
  induction xs with
  | nil => exact ⟨[[]], by simp [splitDot], by simp⟩
  | cons c xs ih =>
    obtain ⟨pre, hpre, hne⟩ := ih
    by_cases hc : c = '.'
    · exact ⟨[] :: pre, by simp [splitDot, hc, hpre], by simp⟩
    · cases pre with
      | nil => exact absurd rfl hne
      | cons p ps =>
        exact ⟨(c :: p) :: ps, by simp [splitDot, hc, hpre], by simp⟩

theorem lastName_append_dot (a b : String) (h : '.' ∉ b.data) :
    lastName (a ++ "." ++ b) = String.mk b.data := by
  unfold lastName
  have hd : (a ++ "." ++ b).data = a.data ++ '.' :: b.data := by
    simp [String.data_append]
  obtain ⟨pre, hpre, _⟩ := splitDot_append_dot a.data b.data
  rw [hd, hpre, splitDot_no_dot _ h]
  simp

theorem formatInt_no_dot (k : Int) (h0 : 0 ≤ k) : '.' ∉ (formatInt k).data := by
  obtain ⟨n, rfl⟩ := Int.eq_ofNat_of_zero_le h0
  rw [formatInt_data]
  intro hmem
  have := parseDigits_isDigit _ _ _ (parseDigits_toDigitsCore _ _ (Nat.lt_succ_self n)) _ hmem
  exact absurd this (by decide)

/-! ## The increment of the index on the type int -/

theorem incrIndex_eq (i : Int) (hlo : -(2 ^ 63) ≤ i) (hhi : i < 2 ^ 63 - 1) :
    incrIndex i = i + 1 := by
  unfold incrIndex wrapInt
  omega

theorem incrIndex_range (i : Int) : -(2 ^ 63) ≤ incrIndex i ∧ incrIndex i < 2 ^ 63 := by
  unfold incrIndex wrapInt
  omega

theorem incrIndex_zero : incrIndex 0 = 1 := by decide

theorem incrIndex_one : incrIndex 1 = 2 := by decide

/-! ## The scenario of three writes -/

theorem string_append_cancel (a b c : String) (h : a ++ b = a ++ c) : b = c := by
  have hd := congrArg String.data h
  simp only [String.data_append] at hd
  exact String.ext (List.append_cancel_left hd)

theorem getCurrentFileName_eq (h : FileHook) (timeStr : String) :
    h.getCurrentFileName timeStr = pathOfIndex h.toConfig timeStr h.currentIndex := rfl

theorem pathOfIndex_ne (c : Config) (timeStr : String) :
    pathOfIndex c timeStr 1 ≠ pathOfIndex c timeStr 2 := by
  intro h
  have hne : formatInt 1 ≠ formatInt 2 := by decide
  unfold pathOfIndex FileHook.getCurrentFileName at h
  split at h
  · simp only [FileHook.fresh, String.append_assoc] at h
    exact hne (string_append_cancel _ _ _ (string_append_cancel _ _ _ (string_append_cancel _ _ _ h)))
  · simp only [FileHook.fresh, String.append_assoc] at h
    exact hne (string_append_cancel _ _ _ (string_append_cancel _ _ _ (string_append_cancel _ _ _
      (string_append_cancel _ _ _ (string_append_cancel _ _ _ (string_append_cancel _ _ _ h))))))

/-- C2 fails: with the default path and file name, the period key 20240615 and a
limit of 10 bytes, after the three writes the file of index 1 does not hold the first
two records and the file of index 2 does not hold just "X": the files hold "12345" and
"67890X". -/
theorem three_writes_as_claimed_fails :
    ¬ ((writeAll "20240615" threeRecords (startEmpty smallConfig "20240615")).2.content
          (pathOfIndex smallConfig "20240615" 1) = some (bytes "12345" ++ bytes "67890") ∧
       (writeAll "20240615" threeRecords (startEmpty smallConfig "20240615")).2.content
          (pathOfIndex smallConfig "20240615" 2) = some (bytes "X")) := by
  decide

/-- C2 (amended): starting from an empty directory with `MaxFileSize = 10` and every
system call succeeding, the writes "12345", "67890", "X" put the first record in the
file of index 1 and, the second write rotating because 5 + 5 >= 10, the second and
third records in the file of index 2, which then holds "67890X"; the hook ends at
index 2 with size 6.  This holds for every path, base name and period key. -/
theorem three_writes_amended (c : Config) (timeStr : String) (hmax : c.MaxFileSize = 10) :
    (writeAll timeStr threeRecords (startEmpty c timeStr)).2.content (pathOfIndex c timeStr 1) =
      some (bytes "12345") ∧
    (writeAll timeStr threeRecords (startEmpty c timeStr)).2.content (pathOfIndex c timeStr 2) =
      some (bytes "67890X") ∧
    (writeAll timeStr threeRecords (startEmpty c timeStr)).1.currentIndex = 2 ∧
    (writeAll timeStr threeRecords (startEmpty c timeStr)).1.currentSize = 6 := by
  have hne := pathOfIndex_ne c timeStr
  have hne' := hne.symm
  simp [writeAll, threeRecords, startEmpty, FileHook.dealFiles, FileHook.fresh, FileHook.openFile,
    Outcome.ok, FileHook.Write, FileHook.rotateIfFull, FileHook.shouldRotate, fileWrite, hmax,
    bytes, FileHook.linkFile, World.create, World.content, World.append, World.symlink,
    getCurrentFileName_eq, hne, hne', incrIndex_zero, incrIndex_one]

/-- Witness of C2 (amended): the default path and file name with the period key
20240615. -/
theorem three_writes_amended_witness :
    smallConfig.MaxFileSize = 10 ∧
    (writeAll "20240615" threeRecords (startEmpty smallConfig "20240615")).2.content
      (pathOfIndex smallConfig "20240615" 1) = some (bytes "12345") ∧
    (writeAll "20240615" threeRecords (startEmpty smallConfig "20240615")).2.content
      (pathOfIndex smallConfig "20240615" 2) = some (bytes "67890X") ∧
    (writeAll "20240615" threeRecords (startEmpty smallConfig "20240615")).1.currentIndex = 2 ∧
    (writeAll "20240615" threeRecords (startEmpty smallConfig "20240615")).1.currentSize = 6 :=
  ⟨rfl, three_writes_amended smallConfig "20240615" rfl⟩

/-! ## dealFiles: the startup scan -/

theorem scanEntry_skip (M : String → String → Bool) (p : String) (h : FileHook) (f : FileInfo)
    (hle : matchesRegular M p f = true → parsedIndex f ≤ h.currentIndex) :
    FileHook.scanEntry M p h f = h := by
  unfold FileHook.scanEntry
  by_cases hm : M p f.Name = true
  · by_cases hd : f.IsDir = true
    · simp [hm, hd]
    · have hc : matchesRegular M p f = true := by simp [matchesRegular, hm, hd]
      have := hle hc
      have hn : ¬ (parsedIndex f > h.currentIndex) := by omega
      simp [hm, hd, hn]
  · simp [hm]

theorem scanEntry_take (M : String → String → Bool) (p : String) (h : FileHook) (f : FileInfo)
    (hc : matchesRegular M p f = true) (hgt : parsedIndex f > h.currentIndex) :
    FileHook.scanEntry M p h f = { h with currentIndex := parsedIndex f, currentFile := some f } := by
  simp only [matchesRegular, Bool.and_eq_true, Bool.not_eq_true'] at hc
  simp [FileHook.scanEntry, hc.1, hc.2, hgt]

theorem scan_skip_all (M : String → String → Bool) (p : String) (l : List FileInfo) :
    ∀ h : FileHook, (∀ g ∈ l, matchesRegular M p g = true → parsedIndex g ≤ h.currentIndex) →
      l.foldl (FileHook.scanEntry M p) h = h := by
  induction l with
  | nil => intro h _; rfl
  | cons f l ih =>
    intro h hall
    rw [List.foldl_cons, scanEntry_skip M p h f (hall f (List.mem_cons_self _ _))]
    exact ih h (fun g hg => hall g (List.mem_cons_of_mem _ hg))

theorem scan_below (M : String → String → Bool) (p : String) (k : Int) (l : List FileInfo) :
    ∀ h : FileHook, h.currentIndex < k →
      (∀ g ∈ l, matchesRegular M p g = true → parsedIndex g < k) →
      (l.foldl (FileHook.scanEntry M p) h).currentIndex < k ∧
      (l.foldl (FileHook.scanEntry M p) h).toConfig = h.toConfig ∧
      (l.foldl (FileHook.scanEntry M p) h).currentSize = h.currentSize ∧
      (l.foldl (FileHook.scanEntry M p) h).file = h.file := by
  induction l with
  | nil => intro h hk _; exact ⟨hk, rfl, rfl, rfl⟩
  | cons f l ih =>
    intro h hk hall
    rw [List.foldl_cons]
    have hrest : ∀ g ∈ l, matchesRegular M p g = true → parsedIndex g < k :=
      fun g hg => hall g (List.mem_cons_of_mem _ hg)
    by_cases hc : matchesRegular M p f = true ∧ parsedIndex f > h.currentIndex
    · rw [scanEntry_take M p h f hc.1 hc.2]
      have := ih { h with currentIndex := parsedIndex f, currentFile := some f }
        (hall f (List.mem_cons_self _ _) hc.1) hrest
      exact this
    · rw [scanEntry_skip M p h f (fun hm => by
        have : ¬ (parsedIndex f > h.currentIndex) := fun hgt => hc ⟨hm, hgt⟩
        omega)]
      exact ih h hk hrest

theorem scan_selects (M : String → String → Bool) (p : String) (h : FileHook)
    (pre post : List FileInfo) (f : FileInfo)
    (hf : matchesRegular M p f = true) (hgt : h.currentIndex < parsedIndex f)
    (hpre : ∀ g ∈ pre, matchesRegular M p g = true → parsedIndex g < parsedIndex f)
    (hpost : ∀ g ∈ post, matchesRegular M p g = true → parsedIndex g ≤ parsedIndex f) :
    (pre ++ f :: post).foldl (FileHook.scanEntry M p) h =
      { h with currentIndex := parsedIndex f, currentFile := some f } := by
  obtain ⟨h1, h2, h3, h4⟩ := scan_below M p (parsedIndex f) pre h hgt hpre
  rw [List.foldl_append, List.foldl_cons, scanEntry_take M p _ f hf h1]
  rw [scan_skip_all M p post _ hpost]
  cases hh : pre.foldl (FileHook.scanEntry M p) h
  rw [hh] at h2 h3 h4
  cases h
  simp_all

/-- C3 fails at k = 0: a directory holding the single regular file
`file.log.20240615.0` of 5 bytes, with a limit of 10 bytes.  The file matches, its
parsed index is 0 and is the highest, its size is below the limit, yet the scan ends
with index 1 and size 0 instead of index 0 and size 5. -/
theorem dealFiles_index_zero_not_resumed :
    matchesRegular regexpMatchString (matchStr smallConfig.FileName "20240615") indexZeroFile = true ∧
    parsedIndex indexZeroFile = 0 ∧
    indexZeroFile.Size < smallConfig.MaxFileSize ∧
    ((FileHook.fresh smallConfig).dealFiles regexpMatchString "20240615" [indexZeroFile]).currentIndex = 1 ∧
    ((FileHook.fresh smallConfig).dealFiles regexpMatchString "20240615" [indexZeroFile]).currentSize = 0 ∧
    ¬ (((FileHook.fresh smallConfig).dealFiles regexpMatchString "20240615"
          [indexZeroFile]).currentIndex = 0 ∧
       ((FileHook.fresh smallConfig).dealFiles regexpMatchString "20240615"
          [indexZeroFile]).currentSize = indexZeroFile.Size) := by
  decide

/-- C3 (amended): when the highest index parsed among the matching regular files of
the listing is k with k >= 1, and the first file carrying it has size s below
`MaxFileSize`, `dealFiles` on a fresh hook ends with `currentIndex = k` and
`currentSize = s`.  The listing is `pre ++ f :: post` with `f` the first entry that
carries the highest index; `MatchString` is any matcher. -/
theorem dealFiles_resumes (M : String → String → Bool) (c : Config) (timeStr : String)
    (pre post : List FileInfo) (f : FileInfo) (k s : Int)
    (hf : matchesRegular M (matchStr c.FileName timeStr) f = true)
    (hk : parsedIndex f = k) (hs : f.Size = s)
    (hpre : ∀ g ∈ pre, matchesRegular M (matchStr c.FileName timeStr) g = true → parsedIndex g < k)
    (hpost : ∀ g ∈ post, matchesRegular M (matchStr c.FileName timeStr) g = true → parsedIndex g ≤ k)
    (hk1 : 1 ≤ k) (hlt : s < c.MaxFileSize) :
    ((FileHook.fresh c).dealFiles M timeStr (pre ++ f :: post)).currentIndex = k ∧
    ((FileHook.fresh c).dealFiles M timeStr (pre ++ f :: post)).currentSize = s := by
  subst hk hs
  have hsel := scan_selects M (matchStr c.FileName timeStr) (FileHook.fresh c) pre post f hf
    (by simp only [FileHook.fresh]; omega) hpre hpost
  have hnot : ¬ (f.Size ≥ c.MaxFileSize) := by omega
  simp only [FileHook.fresh] at hsel
  simp [FileHook.dealFiles, FileHook.fresh, hsel, hnot]

/-- Witness of C3 (amended): files 1 (full), 3 (4 bytes), 2 (full), a directory and a
stray file; the scan resumes index 3 with size 4. -/
theorem dealFiles_resumes_witness :
    ((FileHook.fresh smallConfig).dealFiles regexpMatchString "20240615"
      ([logEntry 1 10] ++ logEntry 3 4 :: [logEntry 2 10, dirEntry, strayEntry])).currentIndex = 3 ∧
    ((FileHook.fresh smallConfig).dealFiles regexpMatchString "20240615"
      ([logEntry 1 10] ++ logEntry 3 4 :: [logEntry 2 10, dirEntry, strayEntry])).currentSize = 4 :=
  dealFiles_resumes regexpMatchString smallConfig "20240615" [logEntry 1 10]
    [logEntry 2 10, dirEntry, strayEntry] (logEntry 3 4) 3 4
    (by decide) (by decide) (by decide) (by decide) (by decide) (by decide) (by decide)

/-- C4 fails at the largest index: a directory holding the single regular file
`file.log.20240615.9223372036854775807` of 12 bytes, with a limit of 10 bytes.  The file
matches, `Atoi` reads its index 2 ^ 63 - 1 with no error, its size is over the limit,
and the increment of the index wraps: the scan ends with index -2 ^ 63, not with
2 ^ 63. -/
theorem dealFiles_wraps_at_last_index :
    matchesRegular regexpMatchString (matchStr smallConfig.FileName "20240615") lastIndexEntry = true ∧
    Atoi (lastName lastIndexEntry.Name) = (9223372036854775807, none) ∧
    lastIndexEntry.Size ≥ smallConfig.MaxFileSize ∧
    ((FileHook.fresh smallConfig).dealFiles regexpMatchString "20240615"
      [lastIndexEntry]).currentIndex = -9223372036854775808 ∧
    ((FileHook.fresh smallConfig).dealFiles regexpMatchString "20240615"
      [lastIndexEntry]).currentIndex ≠ parsedIndex lastIndexEntry + 1 := by
  decide

/-- C4 (amended): when the highest index parsed among the matching regular files of the
listing is k with 0 <= k < 2 ^ 63 - 1, so that k + 1 is a value of `int`, and the first
file carrying it has size s with s >= `MaxFileSize`, `dealFiles` on a fresh hook ends
with `currentIndex = k + 1` and `currentSize = 0`. -/
theorem dealFiles_starts_next (M : String → String → Bool) (c : Config) (timeStr : String)
    (pre post : List FileInfo) (f : FileInfo) (k s : Int)
    (hf : matchesRegular M (matchStr c.FileName timeStr) f = true)
    (hk : parsedIndex f = k) (hs : f.Size = s)
    (hpre : ∀ g ∈ pre, matchesRegular M (matchStr c.FileName timeStr) g = true → parsedIndex g < k)
    (hpost : ∀ g ∈ post, matchesRegular M (matchStr c.FileName timeStr) g = true → parsedIndex g ≤ k)
    (hk0 : 0 ≤ k) (hk1 : k < 2 ^ 63 - 1) (hge : s ≥ c.MaxFileSize) :
    ((FileHook.fresh c).dealFiles M timeStr (pre ++ f :: post)).currentIndex = k + 1 ∧
    ((FileHook.fresh c).dealFiles M timeStr (pre ++ f :: post)).currentSize = 0 := by
  subst hk hs
  by_cases hz : parsedIndex f = 0
  · have hskip := scan_skip_all M (matchStr c.FileName timeStr) (pre ++ f :: post)
      (FileHook.fresh c) (by
        intro g hg hm
        simp only [FileHook.fresh]
        rcases List.mem_append.1 hg with hg | hg
        · have := hpre g hg hm; omega
        · rcases List.mem_cons.1 hg with rfl | hg
          · omega
          · have := hpost g hg hm; omega)
    simp only [FileHook.fresh] at hskip
    simp [FileHook.dealFiles, FileHook.fresh, hskip, hz, incrIndex_zero]
  · have hsel := scan_selects M (matchStr c.FileName timeStr) (FileHook.fresh c) pre post f hf
      (by simp only [FileHook.fresh]; omega) hpre hpost
    have hinc := incrIndex_eq (parsedIndex f) (by omega) hk1
    simp only [FileHook.fresh] at hsel
    simp [FileHook.dealFiles, FileHook.fresh, hsel, hge, hinc]

/-- Witness of C4 (amended): files 1 (full), 3 (12 bytes, over the limit of 10), 2
(full), a directory and a stray file; the scan starts index 4 with size 0. -/
theorem dealFiles_starts_next_witness :
    ((FileHook.fresh smallConfig).dealFiles regexpMatchString "20240615"
      ([logEntry 1 10] ++ logEntry 3 12 :: [logEntry 2 10, dirEntry, strayEntry])).currentIndex = 3 + 1 ∧
    ((FileHook.fresh smallConfig).dealFiles regexpMatchString "20240615"
      ([logEntry 1 10] ++ logEntry 3 12 :: [logEntry 2 10, dirEntry, strayEntry])).currentSize = 0 :=
  dealFiles_starts_next regexpMatchString smallConfig "20240615" [logEntry 1 10]
    [logEntry 2 10, dirEntry, strayEntry] (logEntry 3 12) 3 12
    (by decide) (by decide) (by decide) (by decide) (by decide) (by decide) (by decide)
    (by decide)

/-- C5: when no entry of the listing is a regular file matching the pattern (in
particular when the listing is empty), `dealFiles` on a fresh hook ends with
`currentIndex = 1` and `currentSize = 0`. -/
theorem dealFiles_no_candidate (M : String → String → Bool) (c : Config) (timeStr : String)
    (files : List FileInfo)
    (hnone : ∀ g ∈ files, matchesRegular M (matchStr c.FileName timeStr) g = false) :
    ((FileHook.fresh c).dealFiles M timeStr files).currentIndex = 1 ∧
    ((FileHook.fresh c).dealFiles M timeStr files).currentSize = 0 := by
  have hskip := scan_skip_all M (matchStr c.FileName timeStr) files (FileHook.fresh c)
    (fun g hg hm => by rw [hnone g hg] at hm; exact absurd hm (by decide))
  simp only [FileHook.fresh] at hskip
  simp [FileHook.dealFiles, FileHook.fresh, hskip, incrIndex_zero]

/-- Witness of C5: a listing with a matching directory and a stray file only. -/
theorem dealFiles_no_candidate_witness :
    ((FileHook.fresh smallConfig).dealFiles regexpMatchString "20240615"
      [dirEntry, strayEntry]).currentIndex = 1 ∧
    ((FileHook.fresh smallConfig).dealFiles regexpMatchString "20240615"
      [dirEntry, strayEntry]).currentSize = 0 :=
  dealFiles_no_candidate regexpMatchString smallConfig "20240615" [dirEntry, strayEntry]
    (by decide)

/-! ## File names and the index read back from them -/

/-- C6: `getNoPathFileName` is the base name directly followed by the decimal index
when the period key is empty and `baseName.periodKey.index` otherwise;
`getCurrentFileName` is that name after `Path` and the path separator. -/
theorem fileName_format (h : FileHook) (timeStr : String) :
    h.getNoPathFileName timeStr =
      (if timeStr = "" then h.FileName ++ formatInt h.currentIndex
       else h.FileName ++ "." ++ timeStr ++ "." ++ formatInt h.currentIndex) ∧
    h.getCurrentFileName timeStr = h.Path ++ PathSeparator ++ h.getNoPathFileName timeStr := by
  refine ⟨rfl, ?_⟩
  unfold FileHook.getCurrentFileName FileHook.getNoPathFileName
  split <;> simp [String.append_assoc]

/-- C7 at the default base name: the name generated for (`file.log`, no period key,
index 1) is `file.log1`; the scan accepts it as a match, reads its last component
`log1`, `Atoi` fails and the index read is 0, not 1.  On a directory holding
`file.log1` and `file.log2` the scan therefore ends at index 1 with size 0. -/
theorem noPeriod_name_not_parsed :
    (hookAt 1).getNoPathFileName "" = "file.log1" ∧
    regexpMatchString (matchStr (hookAt 1).FileName "") "file.log1" = true ∧
    lastName ((hookAt 1).getNoPathFileName "") = "log1" ∧
    Atoi (lastName ((hookAt 1).getNoPathFileName "")) = (0, some NumError.ErrSyntax) ∧
    ((FileHook.fresh smallConfig).dealFiles regexpMatchString ""
      [{ Name := "file.log1", Size := 5, IsDir := false, ModTime := 0 },
       { Name := "file.log2", Size := 3, IsDir := false, ModTime := 0 }]).currentIndex = 1 ∧
    ((FileHook.fresh smallConfig).dealFiles regexpMatchString ""
      [{ Name := "file.log1", Size := 5, IsDir := false, ModTime := 0 },
       { Name := "file.log2", Size := 3, IsDir := false, ModTime := 0 }]).currentSize = 0 := by
  decide

/-- C8: with a non-empty period key, the index read back from the generated name
`baseName.periodKey.k` (last component of the split on ".", converted by `Atoi`) is k,
with no error, for every index k of type `int` with k >= 0. -/
theorem period_name_parsed (h : FileHook) (timeStr : String) (hkey : timeStr ≠ "")
    (h0 : 0 ≤ h.currentIndex) (hint : h.currentIndex < 2 ^ 63) :
    Atoi (lastName (h.getNoPathFileName timeStr)) = (h.currentIndex, none) := by
  unfold FileHook.getNoPathFileName
  rw [if_neg hkey, lastName_append_dot _ _ (formatInt_no_dot _ h0)]
  exact Atoi_formatInt _ h0 hint

/-- Witness of C8: base name `file.log`, period key 20240615, index 12. -/
theorem period_name_parsed_witness :
    Atoi (lastName ((hookAt 12).getNoPathFileName "20240615")) = ((hookAt 12).currentIndex, none) :=
  period_name_parsed (hookAt 12) "20240615" (by decide) (by decide) (by decide)

/-! ## Write: failing system calls -/

/-- C9 fails: a hook at index 1 with 8 accounted bytes under a limit of 10 receives a
record of 3 bytes, so a rotation is triggered, and `os.OpenFile` fails.  After the
call `currentIndex` is 2, not 1. -/
theorem Write_open_failure_advances_index :
    busyHook.shouldRotate (bytes "abc") = true ∧
    openFailure.openFails = true ∧
    busyHook.currentIndex = 1 ∧
    (busyHook.Write openFailure (bytes "abc") busyWorld).1.currentIndex = 2 ∧
    (busyHook.Write openFailure (bytes "abc") busyWorld).1.currentIndex ≠ busyHook.currentIndex := by
  decide

/-- C9 (amended): in a call of `Write` in which a rotation is triggered and the open
of the new file fails, made with `currentIndex` below the largest `int`,
`currentIndex` after the call is its value before the call plus 1 and `currentSize` is
0; the handle is nil, nothing is written and `Write` returns the error of the append
on the nil handle. -/
theorem Write_open_failure (h : FileHook) (o : Outcome) (line : List UInt8) (w : World)
    (hlo : -(2 ^ 63) ≤ h.currentIndex) (hhi : h.currentIndex < 2 ^ 63 - 1)
    (hrot : h.currentSize + (line.length : Int) ≥ h.MaxFileSize) (hfail : o.openFails = true) :
    (h.Write o line w).1.currentIndex = h.currentIndex + 1 ∧
    (h.Write o line w).1.currentSize = 0 ∧
    (h.Write o line w).1.file = none ∧
    (h.Write o line w).2.1 = w ∧
    (h.Write o line w).2.2 = some Error.ErrInvalid := by
  have hr : h.shouldRotate line = true := by simp [FileHook.shouldRotate, hrot]
  have hinc := incrIndex_eq h.currentIndex hlo hhi
  simp [FileHook.Write, FileHook.rotateIfFull, hr, FileHook.openFile, hfail, fileWrite, hinc]

/-- Witness of C9 (amended): the hook with 8 bytes at index 1, a record of 3 bytes and
a failing open. -/
theorem Write_open_failure_witness :
    (busyHook.Write openFailure (bytes "abc") busyWorld).1.currentIndex = busyHook.currentIndex + 1 ∧
    (busyHook.Write openFailure (bytes "abc") busyWorld).1.currentSize = 0 ∧
    (busyHook.Write openFailure (bytes "abc") busyWorld).1.file = none ∧
    (busyHook.Write openFailure (bytes "abc") busyWorld).2.1 = busyWorld ∧
    (busyHook.Write openFailure (bytes "abc") busyWorld).2.2 = some Error.ErrInvalid :=
  Write_open_failure busyHook openFailure (bytes "abc") busyWorld (by decide) (by decide)
    (by decide) (by decide)

/-- C10: `Write` returns the error of the append (nil when it succeeds).  When the
append fails, `currentSize` keeps the value it had before the append: 0 if the call
rotated, its previous value otherwise.  When the append succeeds, the byte count is
the length of the record and `currentSize` grows by exactly that count. -/
theorem Write_size_accounting (h : FileHook) (o : Outcome) (line : List UInt8) (w : World) :
    (h.Write o line w).2.2 =
      (fileWrite (h.rotateIfFull o line w).1.file o line (h.rotateIfFull o line w).2).2.2 ∧
    (h.rotateIfFull o line w).1.currentSize =
      (if h.currentSize + (line.length : Int) ≥ h.MaxFileSize then 0 else h.currentSize) ∧
    ((h.Write o line w).2.2 ≠ none →
      (h.Write o line w).1.currentSize =
        (if h.currentSize + (line.length : Int) ≥ h.MaxFileSize then 0 else h.currentSize)) ∧
    ((h.Write o line w).2.2 = none →
      (fileWrite (h.rotateIfFull o line w).1.file o line (h.rotateIfFull o line w).2).2.1 =
        line.length ∧
      (h.Write o line w).1.currentSize =
        (if h.currentSize + (line.length : Int) ≥ h.MaxFileSize then 0 else h.currentSize) +
          (line.length : Int)) := by
  by_cases hc : h.currentSize + (line.length : Int) ≥ h.MaxFileSize
  · have hr : h.shouldRotate line = true := by simp [FileHook.shouldRotate, hc]
    cases ho : o.openFails <;> cases hw : o.writeFailsAfter <;>
      simp [FileHook.Write, FileHook.rotateIfFull, hr, FileHook.openFile, fileWrite, hc, ho, hw]
  · have hr : h.shouldRotate line = false := by simp [FileHook.shouldRotate, hc]
    cases hf : h.file <;> cases hw : o.writeFailsAfter <;>
      simp [FileHook.Write, FileHook.rotateIfFull, hr, fileWrite, hc, hf, hw]


/-! ## Write: after a failed open -/

theorem Write_nil_file (h : FileHook) (o : Outcome) (line : List UInt8) (w : World)
    (hfile : h.file = none) (hno : (h.shouldRotate line && !o.openFails) = false) :
    (h.Write o line w).2.2 = some Error.ErrInvalid ∧ (h.Write o line w).1.file = none := by
  cases hr : h.shouldRotate line
  · simp [FileHook.Write, FileHook.rotateIfFull, hr, fileWrite, hfile]
  · have ho : o.openFails = true := by simpa [hr] using hno
    simp [FileHook.Write, FileHook.rotateIfFull, hr, FileHook.openFile, ho, fileWrite]

theorem trace_nil_file (calls : List (Outcome × List UInt8)) :
    ∀ (h : FileHook) (w : World), h.file = none →
      (∀ s ∈ trace calls h w, s.reopened = false) → ∀ s ∈ trace calls h w, s.err ≠ none := by
  induction calls with
  | nil => intro h w _ _ s hs; simp [trace] at hs
  | cons call rest ih =>
    obtain ⟨o, line⟩ := call
    intro h w hfile hno s hs
    have hhead := hno _ (List.mem_cons_self _ _)
    obtain ⟨herr, hnil⟩ := Write_nil_file h o line w hfile hhead
    rcases List.mem_cons.1 hs with rfl | hs
    · simp [herr]
    · exact ih _ _ hnil (fun s' hs' => hno s' (List.mem_cons_of_mem _ hs')) s hs

/-- C11 fails as stated: after the write of "abc" that triggers a rotation whose open
fails, a record of 10 bytes and one of 1 byte each trigger a rotation whose open
succeeds; the next record of 1 byte does not trigger a rotation and `Write` returns
nil. -/
theorem Write_recovers_after_reopen :
    busyHook.shouldRotate (bytes "abc") = true ∧
    openFailure.openFails = true ∧
    (busyHook.Write openFailure (bytes "abc") busyWorld).2.2 = some Error.ErrInvalid ∧
    trace recoveryCalls (busyHook.Write openFailure (bytes "abc") busyWorld).1
        (busyHook.Write openFailure (bytes "abc") busyWorld).2.1 =
      [{ rotated := true, reopened := true, err := none },
       { rotated := true, reopened := true, err := none },
       { rotated := false, reopened := false, err := none }] ∧
    ¬ (∀ s ∈ trace recoveryCalls (busyHook.Write openFailure (bytes "abc") busyWorld).1
        (busyHook.Write openFailure (bytes "abc") busyWorld).2.1,
        s.rotated = false → s.err ≠ none) := by
  decide

/-- C11 (amended): a call of `Write` in which a rotation is triggered and the open of
the new file fails returns a non-nil error, and so does every following call of
`Write`, rotating or not, as long as no call has triggered a rotation whose open
succeeds. -/
theorem Write_fails_until_reopened (h : FileHook) (o : Outcome) (line : List UInt8) (w : World)
    (calls : List (Outcome × List UInt8))
    (hrot : h.currentSize + (line.length : Int) ≥ h.MaxFileSize) (hfail : o.openFails = true)
    (hno : ∀ s ∈ trace calls (h.Write o line w).1 (h.Write o line w).2.1, s.reopened = false) :
    (h.Write o line w).2.2 ≠ none ∧
    ∀ s ∈ trace calls (h.Write o line w).1 (h.Write o line w).2.1, s.err ≠ none := by
  have hr : h.shouldRotate line = true := by simp [FileHook.shouldRotate, hrot]
  have hnil : (h.Write o line w).1.file = none := by
    simp [FileHook.Write, FileHook.rotateIfFull, hr, FileHook.openFile, hfail, fileWrite]
  have herr : (h.Write o line w).2.2 = some Error.ErrInvalid := by
    simp [FileHook.Write, FileHook.rotateIfFull, hr, FileHook.openFile, hfail, fileWrite]
  exact ⟨by simp [herr], trace_nil_file calls _ _ hnil hno⟩

/-- Witness of C11 (amended): after the failed open, a record of 1 byte and a record
of 12 bytes whose rotation fails to open as well; both calls return an error. -/
theorem Write_fails_until_reopened_witness :
    (busyHook.Write openFailure (bytes "abc") busyWorld).2.2 ≠ none ∧
    ∀ s ∈ trace failingCalls (busyHook.Write openFailure (bytes "abc") busyWorld).1
        (busyHook.Write openFailure (bytes "abc") busyWorld).2.1, s.err ≠ none :=
  Write_fails_until_reopened busyHook openFailure (bytes "abc") busyWorld failingCalls
    (by decide) (by decide) (by decide)

/-! ## removeFiles: the retention sweep -/

theorem sweepEntry_eq (M : String → String → Bool) (p : String) (maxAge now : Int)
    (acc : List FileInfo) (g : FileInfo) :
    sweepEntry M p maxAge now acc g =
      if M p g.Name = true ∧ g.IsDir = false ∧ g.ModTime + maxAge ≤ now then acc ++ [g]
      else acc := by
  unfold sweepEntry
  by_cases hm : M p g.Name = true
  · by_cases hd : g.IsDir = true
    · simp [hm, hd]
    · by_cases he : g.ModTime + maxAge > now
      · have hle : ¬ (g.ModTime + maxAge ≤ now) := by omega
        simp [hm, hd, he, hle]
      · have hle : g.ModTime + maxAge ≤ now := by omega
        simp [hm, hd, hle]
  · simp [hm]

theorem sweep_mem (M : String → String → Bool) (p : String) (maxAge now : Int)
    (l : List FileInfo) : ∀ (acc : List FileInfo) (f : FileInfo),
      f ∈ l.foldl (sweepEntry M p maxAge now) acc ↔
        f ∈ acc ∨ (f ∈ l ∧ M p f.Name = true ∧ f.IsDir = false ∧ f.ModTime + maxAge ≤ now) := by
  induction l with
  | nil => intro acc f; simp
  | cons g l ih =>
    intro acc f
    rw [List.foldl_cons, ih, sweepEntry_eq]
    by_cases hc : M p g.Name = true ∧ g.IsDir = false ∧ g.ModTime + maxAge ≤ now
    · rw [if_pos hc]
      simp only [List.mem_append, List.mem_cons, List.not_mem_nil, or_false]
      constructor
      · rintro ((h | h) | ⟨h1, h2⟩)
        · exact Or.inl h
        · subst h; exact Or.inr ⟨Or.inl rfl, hc⟩
        · exact Or.inr ⟨Or.inr h1, h2⟩
      · rintro (h | ⟨h1 | h1, h2⟩)
        · exact Or.inl (Or.inl h)
        · exact Or.inl (Or.inr h1)
        · exact Or.inr ⟨h1, h2⟩
    · rw [if_neg hc]
      simp only [List.mem_cons]
      constructor
      · rintro (h | ⟨h1, h2⟩)
        · exact Or.inl h
        · exact Or.inr ⟨Or.inr h1, h2⟩
      · rintro (h | ⟨h1 | h1, h2⟩)
        · exact Or.inl h
        · subst h1; exact absurd h2 hc
        · exact Or.inr ⟨h1, h2⟩

theorem removeFiles_mem (h : FileHook) (M : String → String → Bool) (timeStr : String)
    (now : Int) (files : List FileInfo) (f : FileInfo) :
    f ∈ h.removeFiles M timeStr now files ↔
      f ∈ files ∧ M (matchStr h.FileName timeStr) f.Name = true ∧ f.IsDir = false ∧
        f.ModTime + h.maxAge ≤ now := by
  unfold FileHook.removeFiles
  rw [sweep_mem]
  simp


/-- C12: in one sweep, an entry of the listing that matches the pattern is handed to
`os.Remove` (whose error is dropped), if it is a regular file, exactly when its
modification time plus `maxAge` is not after now, and never if it is a directory; an
entry that does not match is never handed to `os.Remove`. -/
theorem removeFiles_deletes_iff (h : FileHook) (M : String → String → Bool) (timeStr : String)
    (now : Int) (files : List FileInfo) (f : FileInfo) (hf : f ∈ files) :
    (M (matchStr h.FileName timeStr) f.Name = true → f.IsDir = false →
      (f ∈ h.removeFiles M timeStr now files ↔ f.ModTime + h.maxAge ≤ now)) ∧
    (M (matchStr h.FileName timeStr) f.Name = true → f.IsDir = true →
      f ∉ h.removeFiles M timeStr now files) ∧
    (M (matchStr h.FileName timeStr) f.Name = false → f ∉ h.removeFiles M timeStr now files) := by
  refine ⟨fun hm hd => ?_, fun _ hd => ?_, fun hm => ?_⟩
  · rw [removeFiles_mem]
    exact ⟨fun hx => hx.2.2.2, fun hx => ⟨hf, hm, hd, hx⟩⟩
  · rw [removeFiles_mem]
    rintro ⟨_, _, h3, _⟩
    rw [hd] at h3
    exact absurd h3 (by decide)
  · rw [removeFiles_mem]
    rintro ⟨_, h2, _, _⟩
    rw [hm] at h2
    exact absurd h2 (by decide)

/-- Witness of C12: the sweep of `sweepListing` at the instant 605300 with a retention
of 604800 removes the first log file only; the three statements are taken at that
file. -/
theorem removeFiles_deletes_iff_witness :
    (hookAt 1).removeFiles regexpMatchString "20240615" 605300 sweepListing = [expiredEntry] ∧
    ((regexpMatchString (matchStr (hookAt 1).FileName "20240615") expiredEntry.Name = true →
      expiredEntry.IsDir = false →
      (expiredEntry ∈ (hookAt 1).removeFiles regexpMatchString "20240615" 605300 sweepListing ↔
        expiredEntry.ModTime + (hookAt 1).maxAge ≤ 605300)) ∧
    (regexpMatchString (matchStr (hookAt 1).FileName "20240615") expiredEntry.Name = true →
      expiredEntry.IsDir = true →
      expiredEntry ∉ (hookAt 1).removeFiles regexpMatchString "20240615" 605300 sweepListing) ∧
    (regexpMatchString (matchStr (hookAt 1).FileName "20240615") expiredEntry.Name = false →
      expiredEntry ∉ (hookAt 1).removeFiles regexpMatchString "20240615" 605300 sweepListing)) :=
  ⟨by decide, removeFiles_deletes_iff (hookAt 1) regexpMatchString "20240615" 605300 sweepListing
    expiredEntry (by decide)⟩

/-! ## The states reachable from construction -/

theorem scanEntry_cases (M : String → String → Bool) (p : String) (h : FileHook) (f : FileInfo) :
    FileHook.scanEntry M p h f = h ∨
      (parsedIndex f > h.currentIndex ∧
        FileHook.scanEntry M p h f = { h with currentIndex := parsedIndex f, currentFile := some f }) := by
  unfold FileHook.scanEntry
  by_cases hm : M p f.Name = true
  · by_cases hd : f.IsDir = true
    · simp [hm, hd]
    · by_cases hgt : parsedIndex f > h.currentIndex
      · right; simp [hm, hd, hgt]
      · left; simp [hm, hd, hgt]
  · simp [hm]

theorem scan_invariant (M : String → String → Bool) (p : String) (all : List FileInfo)
    (l : List FileInfo) : ∀ h : FileHook, (∀ g ∈ l, g ∈ all) → 0 ≤ h.currentIndex →
      (∀ f, h.currentFile = some f → 1 ≤ h.currentIndex ∧ f ∈ all) →
      0 ≤ (l.foldl (FileHook.scanEntry M p) h).currentIndex ∧
      (∀ f, (l.foldl (FileHook.scanEntry M p) h).currentFile = some f →
        1 ≤ (l.foldl (FileHook.scanEntry M p) h).currentIndex ∧ f ∈ all) ∧
      (l.foldl (FileHook.scanEntry M p) h).toConfig = h.toConfig ∧
      (l.foldl (FileHook.scanEntry M p) h).currentSize = h.currentSize ∧
      (l.foldl (FileHook.scanEntry M p) h).file = h.file := by
  induction l with
  | nil => intro h _ h0 hf; exact ⟨h0, hf, rfl, rfl, rfl⟩
  | cons g l ih =>
    intro h hall h0 hf
    rw [List.foldl_cons]
    have hrest : ∀ x ∈ l, x ∈ all := fun x hx => hall x (List.mem_cons_of_mem _ hx)
    rcases scanEntry_cases M p h g with he | ⟨hgt, he⟩
    · rw [he]; exact ih h hrest h0 hf
    · rw [he]
      have := ih { h with currentIndex := parsedIndex g, currentFile := some g } hrest
        (by show 0 ≤ parsedIndex g; omega)
        (by
          intro f hfe
          have hfg : g = f := by simpa using hfe
          subst hfg
          exact ⟨by show 1 ≤ parsedIndex g; omega, hall g (List.mem_cons_self _ _)⟩)
      exact this

theorem scan_index_le (M : String → String → Bool) (p : String) (B : Int) (l : List FileInfo) :
    ∀ h : FileHook, h.currentIndex ≤ B → (∀ g ∈ l, parsedIndex g ≤ B) →
      (l.foldl (FileHook.scanEntry M p) h).currentIndex ≤ B := by
  induction l with
  | nil => intro h hb _; exact hb
  | cons g l ih =>
    intro h hb hall
    rw [List.foldl_cons]
    have hrest : ∀ x ∈ l, parsedIndex x ≤ B := fun x hx => hall x (List.mem_cons_of_mem _ hx)
    rcases scanEntry_cases M p h g with he | ⟨_, he⟩
    · rw [he]; exact ih h hb hrest
    · rw [he]; exact ih _ (hall g (List.mem_cons_self _ _)) hrest

theorem dealFiles_invariant (M : String → String → Bool) (timeStr : String)
    (files : List FileInfo) (h : FileHook) (h0 : h.currentIndex = 0)
    (hf : h.currentFile = none) :
    ((∀ f ∈ files, parsedIndex f < 2 ^ 63 - 1) →
      1 ≤ (h.dealFiles M timeStr files).currentIndex ∧
      (h.dealFiles M timeStr files).currentIndex < 2 ^ 63) ∧
    (h.dealFiles M timeStr files).toConfig = h.toConfig ∧
    (h.dealFiles M timeStr files).file = h.file ∧
    ((∀ f ∈ files, 0 ≤ f.Size) → 0 < h.MaxFileSize →
      0 ≤ (h.dealFiles M timeStr files).currentSize ∧
      (h.dealFiles M timeStr files).currentSize < h.MaxFileSize) := by
  obtain ⟨i0, i1, i2, _, i4⟩ := scan_invariant M (matchStr h.FileName timeStr) files files h
    (fun g hg => hg) (by omega) (by intro f hfe; rw [hf] at hfe; exact absurd hfe (by simp))
  have hub : (∀ f ∈ files, parsedIndex f < 2 ^ 63 - 1) →
      (files.foldl (FileHook.scanEntry M (matchStr h.FileName timeStr)) h).currentIndex ≤
        2 ^ 63 - 2 :=
    fun hp => scan_index_le M _ (2 ^ 63 - 2) files h (by omega)
      (fun g hg => by have := hp g hg; omega)
  unfold FileHook.dealFiles
  simp only
  generalize files.foldl (FileHook.scanEntry M (matchStr h.FileName timeStr)) h = h1 at *
  cases hc : h1.currentFile with
  | none =>
    simp only
    refine ⟨fun hp => ?_, i2, i4, fun _ hmax => ?_⟩
    · have hb := hub hp
      show 1 ≤ incrIndex h1.currentIndex ∧ incrIndex h1.currentIndex < 2 ^ 63
      rw [incrIndex_eq _ (by omega) (by omega)]
      omega
    · exact ⟨le_refl _, hmax⟩
  | some f =>
    obtain ⟨j1, j2⟩ := i1 f hc
    simp only
    by_cases hge : f.Size ≥ h1.MaxFileSize
    · rw [if_pos hge]
      refine ⟨fun hp => ?_, i2, i4, fun _ hmax => ?_⟩
      · have hb := hub hp
        show 1 ≤ incrIndex h1.currentIndex ∧ incrIndex h1.currentIndex < 2 ^ 63
        rw [incrIndex_eq _ (by omega) (by omega)]
        omega
      · exact ⟨le_refl _, hmax⟩
    · rw [if_neg hge]
      refine ⟨fun hp => ?_, i2, i4, fun hs _ => ?_⟩
      · have hb := hub hp
        show 1 ≤ h1.currentIndex ∧ h1.currentIndex < 2 ^ 63
        omega
      · have hmeq : h1.MaxFileSize = h.MaxFileSize := by rw [i2]
        exact ⟨hs f j2, by show f.Size < h.MaxFileSize; omega⟩

theorem Write_config (h : FileHook) (o : Outcome) (line : List UInt8) (w : World) :
    (h.Write o line w).1.toConfig = h.toConfig := by
  cases hr : h.shouldRotate line <;> cases ho : o.openFails <;> cases hf : h.file <;>
    cases hw : o.writeFailsAfter <;>
    simp [FileHook.Write, FileHook.rotateIfFull, hr, FileHook.openFile, ho, fileWrite, hf, hw]

theorem Write_index_step (h : FileHook) (o : Outcome) (line : List UInt8) (w : World) :
    (h.Write o line w).1.currentIndex = h.currentIndex ∨
    (h.Write o line w).1.currentIndex = incrIndex h.currentIndex := by
  cases hr : h.shouldRotate line <;> cases ho : o.openFails <;> cases hf : h.file <;>
    cases hw : o.writeFailsAfter <;>
    simp [FileHook.Write, FileHook.rotateIfFull, hr, FileHook.openFile, ho, fileWrite, hf, hw]

theorem Write_size_bound (h : FileHook) (o : Outcome) (line : List UInt8) (w : World)
    (hmax : 0 < h.MaxFileSize) (hlen : (line.length : Int) < h.MaxFileSize)
    (h0 : 0 ≤ h.currentSize) (h1 : h.currentSize < h.MaxFileSize) :
    0 ≤ (h.Write o line w).1.currentSize ∧
    (h.Write o line w).1.currentSize < h.MaxFileSize := by
  by_cases hc : h.currentSize + (line.length : Int) ≥ h.MaxFileSize
  · have hr : h.shouldRotate line = true := by simp [FileHook.shouldRotate, hc]
    cases ho : o.openFails <;> cases hw : o.writeFailsAfter <;>
      simp [FileHook.Write, FileHook.rotateIfFull, hr, FileHook.openFile, ho, fileWrite, hw] <;>
      omega
  · have hr : h.shouldRotate line = false := by simp [FileHook.shouldRotate, hc]
    cases hf : h.file <;> cases hw : o.writeFailsAfter <;>
      simp [FileHook.Write, FileHook.rotateIfFull, hr, fileWrite, hf, hw] <;> omega

theorem writes_index (calls : List (Outcome × List UInt8)) :
    ∀ (h : FileHook) (w : World), -(2 ^ 63) ≤ h.currentIndex →
      h.currentIndex + (calls.length : Int) < 2 ^ 63 →
      h.currentIndex ≤ (writes calls h w).1.currentIndex ∧
      (writes calls h w).1.currentIndex ≤ h.currentIndex + (calls.length : Int) := by
  induction calls with
  | nil => intro h w _ _; simp [writes]
  | cons call rest ih =>
    obtain ⟨o, line⟩ := call
    intro h w hlo hhi
    simp only [List.length_cons, Nat.cast_add, Nat.cast_one] at hhi ⊢
    have h2 := Write_index_step h o line w
    rw [incrIndex_eq _ hlo (by omega)] at h2
    have h1 := ih (h.Write o line w).1 (h.Write o line w).2.1 (by omega) (by omega)
    simp only [writes]
    omega

theorem writes_size (calls : List (Outcome × List UInt8)) :
    ∀ (h : FileHook) (w : World), 0 < h.MaxFileSize →
      (∀ call ∈ calls, (call.2.length : Int) < h.MaxFileSize) →
      0 ≤ h.currentSize → h.currentSize < h.MaxFileSize →
      0 ≤ (writes calls h w).1.currentSize ∧ (writes calls h w).1.currentSize < h.MaxFileSize := by
  induction calls with
  | nil => intro h w _ _ h0 h1; exact ⟨h0, h1⟩
  | cons call rest ih =>
    obtain ⟨o, line⟩ := call
    intro h w hmax hshort h0 h1
    have hb := Write_size_bound h o line w hmax (hshort (o, line) (List.mem_cons_self _ _)) h0 h1
    have hcfg : (h.Write o line w).1.MaxFileSize = h.MaxFileSize := by rw [Write_config]
    have := ih (h.Write o line w).1 (h.Write o line w).2.1 (by rw [hcfg]; exact hmax)
      (fun call hc => by rw [hcfg]; exact hshort call (List.mem_cons_of_mem _ hc))
      hb.1 (by rw [hcfg]; exact hb.2)
    simp only [writes]
    rw [hcfg] at this
    exact this


theorem withDefaults_MaxFileSize (c : Config) (hmax : 0 < c.MaxFileSize) :
    c.withDefaults.MaxFileSize = c.MaxFileSize := by
  have hn : ¬ (c.MaxFileSize ≤ 0) := by omega
  unfold Config.withDefaults
  simp only
  split_ifs <;> simp_all

theorem openFile_state (h : FileHook) (o : Outcome) (w : World) :
    (h.openFile o w).1.currentIndex = h.currentIndex ∧
    (h.openFile o w).1.currentSize = h.currentSize ∧
    (h.openFile o w).1.toConfig = h.toConfig := by
  unfold FileHook.openFile
  split <;> exact ⟨rfl, rfl, rfl⟩

theorem dealLogFile_invariant (now : String → String) (M : String → String → Bool)
    (files : List FileInfo) (h : FileHook) (h0 : h.currentIndex = 0)
    (hf : h.currentFile = none) :
    ((∀ f ∈ files, parsedIndex f < 2 ^ 63 - 1) →
      1 ≤ (h.dealLogFile now M files).currentIndex ∧
      (h.dealLogFile now M files).currentIndex < 2 ^ 63) ∧
    (h.dealLogFile now M files).MaxFileSize = h.MaxFileSize ∧
    ((∀ f ∈ files, 0 ≤ f.Size) → 0 < h.MaxFileSize →
      0 ≤ (h.dealLogFile now M files).currentSize ∧
      (h.dealLogFile now M files).currentSize < h.MaxFileSize) := by
  obtain ⟨d1, d2, _, d4⟩ := dealFiles_invariant M (now (dealFormat h.Format)) files
    { h with Format := dealFormat h.Format } h0 hf
  refine ⟨d1, ?_, d4⟩
  show ((FileHook.dealFiles { h with Format := dealFormat h.Format } M
    (now (dealFormat h.Format)) files).toConfig).MaxFileSize = _
  rw [d2]

theorem NewFileHook_state (now : String → String) (M : String → String → Bool)
    (s : StartOutcome) (c : Config) (w : World) (h0 : FileHook) (w0 : World) (e : Option Error)
    (hnew : NewFileHook now M s c w = Except.ok (h0, w0, e)) :
    ((∀ f ∈ s.files, parsedIndex f < 2 ^ 63 - 1) →
      1 ≤ h0.currentIndex ∧ h0.currentIndex < 2 ^ 63) ∧
    h0.MaxFileSize = c.withDefaults.MaxFileSize ∧
    ((∀ f ∈ s.files, 0 ≤ f.Size) → 0 < c.withDefaults.MaxFileSize →
      0 ≤ h0.currentSize ∧ h0.currentSize < c.withDefaults.MaxFileSize) := by
  unfold NewFileHook at hnew
  simp only at hnew
  cases hp : c.withDefaults.dealPath s with
  | some err => rw [hp] at hnew; exact absurd hnew (by simp)
  | none =>
    rw [hp] at hnew
    simp only [Except.ok.injEq] at hnew
    have hh0 := congrArg Prod.fst hnew
    simp only at hh0
    obtain ⟨o1, o2, o3⟩ := openFile_state
      ((FileHook.fresh { c.withDefaults with isAP := isAbs c.withDefaults.Path }).dealLogFile
        now M s.files)
      { timeStr := now ((FileHook.fresh
          { c.withDefaults with isAP := isAbs c.withDefaults.Path }).dealLogFile now M s.files).Format,
        openFails := s.openFails, lnFails := s.lnFails, closeFails := false,
        writeFailsAfter := none } w
    rw [hh0] at o1 o2 o3
    obtain ⟨d1, d2, d4⟩ := dealLogFile_invariant now M s.files
      (FileHook.fresh { c.withDefaults with isAP := isAbs c.withDefaults.Path }) rfl rfl
    have hm : h0.MaxFileSize = c.withDefaults.MaxFileSize := by
      show h0.toConfig.MaxFileSize = _
      rw [o3]
      exact d2
    refine ⟨fun hp => by rw [o1]; exact d1 hp, hm, fun hs hmax => ?_⟩
    rw [o2]
    exact d4 hs hmax

/-- C17 fails at the largest index.  `NewFileHook` on a directory holding
`file.log.20240615.9223372036854775807` with 12 bytes, over the limit of 10, returns a
hook whose `currentIndex` is -2 ^ 63, below 1.  On the same file with 8 bytes it returns
a hook at index 2 ^ 63 - 1, and the next call of `Write` that rotates takes
`currentIndex` down to -2 ^ 63. -/
theorem index_wraps_below_one :
    (NewFileHook (clockAt sampleTime) regexpMatchString lastFullStart smallConfig
      emptyWorld).toOption.map (fun r => r.1.currentIndex) = some (-9223372036854775808) ∧
    NewFileHook (clockAt sampleTime) regexpMatchString lastStart smallConfig lastWorld =
      Except.ok (lastHook, lastLinked, none) ∧
    lastHook.currentIndex = 9223372036854775807 ∧
    (lastHook.Write (Outcome.ok "20240615") (bytes "abc") lastLinked).1.currentIndex =
      -9223372036854775808 ∧
    (lastHook.Write (Outcome.ok "20240615") (bytes "abc") lastLinked).1.currentIndex <
      lastHook.currentIndex := by
  refine ⟨by decide, rfl, by decide, by decide, by decide⟩

/-- C17 (amended): when every index parsed from the listing read by `NewFileHook` is
below 2 ^ 63 - 1 and the calls of `Write` are few enough to keep the index below
2 ^ 63 - 1 (the index the hook starts with plus the number of calls), every state
reached from `NewFileHook` by these calls, with arbitrary outcomes of the system
calls, has `currentIndex >= 1`; and a further call of `Write` leaves `currentIndex`
unchanged or increases it by exactly 1. -/
theorem index_at_least_one (now : String → String) (M : String → String → Bool)
    (s : StartOutcome) (c : Config) (w : World) (h0 : FileHook) (w0 : World) (e : Option Error)
    (calls : List (Outcome × List UInt8)) (o : Outcome) (line : List UInt8)
    (hnew : NewFileHook now M s c w = Except.ok (h0, w0, e))
    (hfiles : ∀ f ∈ s.files, parsedIndex f < 2 ^ 63 - 1)
    (hroom : h0.currentIndex + (calls.length : Int) < 2 ^ 63 - 1) :
    1 ≤ (writes calls h0 w0).1.currentIndex ∧
    (((writes calls h0 w0).1.Write o line (writes calls h0 w0).2).1.currentIndex =
        (writes calls h0 w0).1.currentIndex ∨
      ((writes calls h0 w0).1.Write o line (writes calls h0 w0).2).1.currentIndex =
        (writes calls h0 w0).1.currentIndex + 1) := by
  have h1 := (NewFileHook_state now M s c w h0 w0 e hnew).1 hfiles
  have h2 := writes_index calls h0 w0 (by omega) (by omega)
  have h3 := Write_index_step (writes calls h0 w0).1 o line (writes calls h0 w0).2
  rw [incrIndex_eq _ (by omega) (by omega)] at h3
  exact ⟨by omega, h3⟩

/-- C19: when `MaxFileSize > 0` and every record passed to `Write` is shorter than
`MaxFileSize`, every state reached from `NewFileHook` by a sequence of calls of
`Write`, whatever system calls fail, has `0 <= currentSize < MaxFileSize`.  The sizes
of the listed files are lengths, hence not negative. -/
theorem size_below_limit (now : String → String) (M : String → String → Bool)
    (s : StartOutcome) (c : Config) (w : World) (h0 : FileHook) (w0 : World) (e : Option Error)
    (calls : List (Outcome × List UInt8))
    (hnew : NewFileHook now M s c w = Except.ok (h0, w0, e))
    (hmax : 0 < c.MaxFileSize) (hsizes : ∀ f ∈ s.files, 0 ≤ f.Size)
    (hshort : ∀ call ∈ calls, (call.2.length : Int) < c.MaxFileSize) :
    0 ≤ (writes calls h0 w0).1.currentSize ∧
    (writes calls h0 w0).1.currentSize < c.MaxFileSize := by
  obtain ⟨_, hm, hsz⟩ := NewFileHook_state now M s c w h0 w0 e hnew
  have hdef := withDefaults_MaxFileSize c hmax
  rw [hdef] at hm hsz
  have hb := hsz hsizes hmax
  have := writes_size calls h0 w0 (by rw [hm]; exact hmax)
    (fun call hc => by rw [hm]; exact hshort call hc) hb.1 (by rw [hm]; exact hb.2)
  rw [hm] at this
  exact this


/-- Witness of C17 (amended): the hook resumed at index 2, three further calls and one
more. -/
theorem index_at_least_one_witness :
    1 ≤ (writes shortCalls resumedHook resumedLinked).1.currentIndex ∧
    (((writes shortCalls resumedHook resumedLinked).1.Write (Outcome.ok "20240615") (bytes "x")
          (writes shortCalls resumedHook resumedLinked).2).1.currentIndex =
        (writes shortCalls resumedHook resumedLinked).1.currentIndex ∨
      ((writes shortCalls resumedHook resumedLinked).1.Write (Outcome.ok "20240615") (bytes "x")
          (writes shortCalls resumedHook resumedLinked).2).1.currentIndex =
        (writes shortCalls resumedHook resumedLinked).1.currentIndex + 1) :=
  index_at_least_one (clockAt sampleTime) regexpMatchString resumedStart smallConfig resumedWorld
    resumedHook resumedLinked none shortCalls (Outcome.ok "20240615") (bytes "x") rfl
    (by decide) (by decide)

/-- Witness of C19: the hook resumed at index 2 with 4 bytes under a limit of 10, and
three records of 5, 4 and 3 bytes. -/
theorem size_below_limit_witness :
    0 ≤ (writes shortCalls resumedHook resumedLinked).1.currentSize ∧
    (writes shortCalls resumedHook resumedLinked).1.currentSize < smallConfig.MaxFileSize :=
  size_below_limit (clockAt sampleTime) regexpMatchString resumedStart smallConfig resumedWorld
    resumedHook resumedLinked none shortCalls rfl (by decide) (by decide) (by decide)

/-! ## Contents of the files and names of distinct indices -/

theorem content_create_self (w : World) (p : String) :
    (w.create p).content p = some ((w.content p).getD []) := by
  unfold World.create
  cases hc : w.content p with
  | some c => simp [hc]
  | none =>
    simp only [World.content, Option.map_eq_none'] at hc
    simp [World.content, List.find?_append, hc]

theorem content_create_other (w : World) (p q : String) (hne : p ≠ q) :
    (w.create p).content q = w.content q := by
  unfold World.create
  cases hc : w.content p with
  | some c => rfl
  | none =>
    simp only [World.content, List.find?_append]
    cases hq : w.files.find? (fun e => e.1 == q) with
    | some x => simp
    | none => simp [hne]

theorem find_map_append (files : List (String × List UInt8)) (p q : String)
    (bs : List UInt8) :
    (files.map (fun e => if e.1 == p then (e.1, e.2 ++ bs) else e)).find? (fun e => e.1 == q) =
      (files.find? (fun e => e.1 == q)).map (fun e => if e.1 == p then (e.1, e.2 ++ bs) else e) := by
  rw [List.find?_map]
  have hcomp : ((fun e : String × List UInt8 => e.1 == q) ∘
      fun e => if e.1 == p then (e.1, e.2 ++ bs) else e) = fun e => e.1 == q := by
    funext e
    simp only [Function.comp]
    split <;> rfl
  rw [hcomp]

theorem content_append_self (w : World) (p : String) (bs : List UInt8) :
    (w.append p bs).content p = (w.content p).map (fun c => c ++ bs) := by
  simp only [World.append, World.content, find_map_append]
  cases hf : w.files.find? (fun e => e.1 == p) with
  | none => rfl
  | some x =>
    have := List.find?_some hf
    simp only [Option.map_some']
    simp [this]

theorem content_append_other (w : World) (p q : String) (bs : List UInt8) (hne : p ≠ q) :
    (w.append p bs).content q = w.content q := by
  simp only [World.append, World.content, find_map_append]
  cases hf : w.files.find? (fun e => e.1 == q) with
  | none => rfl
  | some x =>
    have hx := List.find?_some hf
    have hxq : x.1 = q := by simpa using hx
    have hxp : ¬ (x.1 = p) := fun e => hne (e.symm.trans hxq)
    simp [hxp]

theorem content_linkFile (h : FileHook) (o : Outcome) (w : World) (q : String) :
    (h.linkFile o w).content q = w.content q := by
  unfold FileHook.linkFile
  split <;> rfl

theorem formatInt_negSucc (m : Nat) :
    (formatInt (Int.negSucc m)).data = '-' :: Nat.toDigits 10 (m + 1) := rfl

theorem toDigits_isDigit (n : Nat) : ∀ c ∈ Nat.toDigits 10 n, (digitVal c).isSome = true :=
  parseDigits_isDigit _ _ _ (parseDigits_toDigitsCore _ _ (Nat.lt_succ_self n))

theorem toDigits_inj (n m : Nat) (h : Nat.toDigits 10 n = Nat.toDigits 10 m) : n = m := by
  have h1 := parseDigits_toDigitsCore _ _ (Nat.lt_succ_self n)
  have h2 := parseDigits_toDigitsCore _ _ (Nat.lt_succ_self m)
  unfold Nat.toDigits at h
  rw [h, h2] at h1
  exact (Option.some.inj h1).symm

theorem formatInt_inj (a b : Int) (h : formatInt a = formatInt b) : a = b := by
  have hd := congrArg String.data h
  cases a with
  | ofNat n =>
    cases b with
    | ofNat m =>
      have : Nat.toDigits 10 n = Nat.toDigits 10 m := hd
      rw [toDigits_inj n m this]
    | negSucc m =>
      have hd' : Nat.toDigits 10 n = '-' :: Nat.toDigits 10 (m + 1) := hd
      have := toDigits_isDigit n '-' (by rw [hd']; exact List.mem_cons_self _ _)
      exact absurd this (by decide)
  | negSucc n =>
    cases b with
    | ofNat m =>
      have hd' : '-' :: Nat.toDigits 10 (n + 1) = Nat.toDigits 10 m := hd
      have := toDigits_isDigit m '-' (by rw [← hd']; exact List.mem_cons_self _ _)
      exact absurd this (by decide)
    | negSucc m =>
      have hd' : '-' :: Nat.toDigits 10 (n + 1) = '-' :: Nat.toDigits 10 (m + 1) := hd
      have := toDigits_inj _ _ (List.cons.inj hd').2
      have hnm : n = m := by omega
      rw [hnm]

theorem formatInt_no_dot_any (k : Int) : '.' ∉ (formatInt k).data := by
  cases k with
  | ofNat n =>
    intro hmem
    have : '.' ∈ Nat.toDigits 10 n := hmem
    exact absurd (toDigits_isDigit n _ this) (by decide)
  | negSucc n =>
    intro hmem
    rw [formatInt_negSucc] at hmem
    rcases List.mem_cons.1 hmem with h | h
    · exact absurd h (by decide)
    · exact absurd (toDigits_isDigit _ _ h) (by decide)

theorem pathOfIndex_inj (c : Config) (t1 t2 : String) (i j : Int)
    (h : pathOfIndex c t1 i = pathOfIndex c t2 j) : i = j := by
  unfold pathOfIndex FileHook.getCurrentFileName at h
  simp only [FileHook.fresh] at h
  by_cases h1 : t1 = ""
  · by_cases h2 : t2 = ""
    · rw [if_pos h1, if_pos h2] at h
      exact formatInt_inj _ _ (string_append_cancel _ _ _ h)
    · rw [if_pos h1, if_neg h2] at h
      have h' : c.Path ++ PathSeparator ++ c.FileName ++ formatInt i =
          c.Path ++ PathSeparator ++ c.FileName ++ ("." ++ t2 ++ "." ++ formatInt j) := by
        rw [h]; simp [String.append_assoc]
      have hi := string_append_cancel _ _ _ h'
      have hmem : '.' ∈ (formatInt i).data := by
        rw [hi]; simp [String.data_append]
      exact absurd hmem (formatInt_no_dot_any i)
  · by_cases h2 : t2 = ""
    · rw [if_neg h1, if_pos h2] at h
      have h' : c.Path ++ PathSeparator ++ c.FileName ++ ("." ++ t1 ++ "." ++ formatInt i) =
          c.Path ++ PathSeparator ++ c.FileName ++ formatInt j := by
        rw [← h]; simp [String.append_assoc]
      have hj := string_append_cancel _ _ _ h'
      have hmem : '.' ∈ (formatInt j).data := by
        rw [← hj]; simp [String.data_append]
      exact absurd hmem (formatInt_no_dot_any j)
    · rw [if_neg h1, if_neg h2] at h
      have hl := congrArg lastName h
      rw [lastName_append_dot _ _ (formatInt_no_dot_any i),
        lastName_append_dot _ _ (formatInt_no_dot_any j)] at hl
      exact formatInt_inj _ _ hl


/-! ## Write: the rotation decision -/

theorem Write_rotating_ok (h : FileHook) (o : Outcome) (line : List UInt8) (w : World)
    (hrot : h.shouldRotate line = true) (hopen : o.openFails = false)
    (hwrite : o.writeFailsAfter = none) :
    h.Write o line w =
      ({ h with currentSize := 0 + (line.length : Int), currentIndex := incrIndex h.currentIndex,
                file := some (pathOfIndex h.toConfig o.timeStr (incrIndex h.currentIndex)) },
       (({ h with currentSize := 0, currentIndex := incrIndex h.currentIndex,
                  file := some (pathOfIndex h.toConfig o.timeStr (incrIndex h.currentIndex)) } :
            FileHook).linkFile o
          (w.create (pathOfIndex h.toConfig o.timeStr (incrIndex h.currentIndex)))).append
          (pathOfIndex h.toConfig o.timeStr (incrIndex h.currentIndex)) line,
       none) := by
  simp [FileHook.Write, FileHook.rotateIfFull, hrot, FileHook.openFile, hopen, fileWrite, hwrite,
    getCurrentFileName_eq]

theorem Write_rotating_content (h : FileHook) (o : Outcome) (line : List UInt8) (w : World)
    (q : String) (hrot : h.shouldRotate line = true)
    (hq : q ≠ pathOfIndex h.toConfig o.timeStr (incrIndex h.currentIndex)) :
    (h.Write o line w).2.1.content q = w.content q ∧
    (h.Write o line w).1.file ≠ some q ∧
    (h.Write o line w).1.currentIndex = incrIndex h.currentIndex := by
  have hq' : pathOfIndex h.toConfig o.timeStr (incrIndex h.currentIndex) ≠ q := fun e => hq e.symm
  cases ho : o.openFails
  · cases hw : o.writeFailsAfter <;>
      simp [FileHook.Write, FileHook.rotateIfFull, hrot, FileHook.openFile, ho, fileWrite, hw,
        getCurrentFileName_eq, content_append_other _ _ _ _ hq', content_linkFile,
        content_create_other _ _ _ hq', hq']
  · simp [FileHook.Write, FileHook.rotateIfFull, hrot, FileHook.openFile, ho, fileWrite]

theorem Write_rotating_lands (h : FileHook) (o : Outcome) (line : List UInt8) (w : World)
    (hrot : h.shouldRotate line = true) :
    (o.openFails = true →
      (h.Write o line w).2.1 = w ∧ (h.Write o line w).2.2 = some Error.ErrInvalid) ∧
    (o.openFails = false → ∀ q : String, (h.Write o line w).2.1.content q =
      if q = pathOfIndex h.toConfig o.timeStr (incrIndex h.currentIndex) then
        some ((w.content q).getD [] ++
          (match o.writeFailsAfter with
           | none => line
           | some n => line.take n))
      else w.content q) := by
  constructor
  · intro ho
    simp [FileHook.Write, FileHook.rotateIfFull, hrot, FileHook.openFile, ho, fileWrite]
  · intro ho q
    by_cases hq : q = pathOfIndex h.toConfig o.timeStr (incrIndex h.currentIndex)
    · subst hq
      cases hw : o.writeFailsAfter <;>
        simp [FileHook.Write, FileHook.rotateIfFull, hrot, FileHook.openFile, ho, fileWrite, hw,
          getCurrentFileName_eq, content_append_self, content_linkFile, content_create_self]
    · rw [if_neg hq]
      exact (Write_rotating_content h o line w q hrot hq).1

/-- C1 fails at the largest index: the hook resumed at index 2 ^ 63 - 1 with 8 accounted
bytes under a limit of 10 receives a record of 3 bytes.  The rotation is triggered and
the increment of the index wraps: `currentIndex` after the call is -2 ^ 63, not the
old index plus 1, and the file opened is named after -2 ^ 63. -/
theorem Write_rotation_wraps_index :
    lastHook.currentSize + ((bytes "abc").length : Int) ≥ lastHook.MaxFileSize ∧
    lastHook.currentIndex = 9223372036854775807 ∧
    (lastHook.Write (Outcome.ok "20240615") (bytes "abc") lastLinked).1.currentIndex =
      -9223372036854775808 ∧
    (lastHook.Write (Outcome.ok "20240615") (bytes "abc") lastLinked).1.currentIndex ≠
      lastHook.currentIndex + 1 ∧
    (lastHook.Write (Outcome.ok "20240615") (bytes "abc") lastLinked).1.file =
      some "./log/file.log.20240615.-9223372036854775808" := by
  decide

/-- C1 (amended): for every state whose `currentIndex` is a value of `int` below the
largest one and whose sum `currentSize + len(line)` is a value of `int64` (the exact
sum of the model is then the sum the program computes), `Write` rotates exactly when
`currentSize + len(line) >= MaxFileSize`.  In that case the size is reset to 0 and the
index incremented before the append: the index after the call is the old one plus 1,
the size after the call counts the bytes of this record only, and the record lands in
the file named after the new index: when the open succeeds, that file holds what it
held before followed by the bytes written and every other file is left as it was; when
the open fails, the handle is nil, no file changes and `Write` returns an error.
Otherwise the index and the handle are unchanged and the record is appended to the
current file, the size growing from its previous value. -/
theorem Write_rotates_iff (h : FileHook) (o : Outcome) (line : List UInt8) (w : World)
    (hlo : -(2 ^ 63) ≤ h.currentIndex) (hhi : h.currentIndex < 2 ^ 63 - 1)
    (_hslo : -(2 ^ 63) ≤ h.currentSize + (line.length : Int))
    (_hshi : h.currentSize + (line.length : Int) < 2 ^ 63) :
    (h.shouldRotate line = true ↔ h.currentSize + (line.length : Int) ≥ h.MaxFileSize) ∧
    ((h.Write o line w).1.currentIndex = h.currentIndex + 1 ↔
      h.currentSize + (line.length : Int) ≥ h.MaxFileSize) ∧
    ((h.Write o line w).1.currentIndex = h.currentIndex ↔
      ¬ (h.currentSize + (line.length : Int) ≥ h.MaxFileSize)) ∧
    (h.currentSize + (line.length : Int) ≥ h.MaxFileSize →
      (h.rotateIfFull o line w).1.currentSize = 0 ∧
      (h.rotateIfFull o line w).1.currentIndex = h.currentIndex + 1 ∧
      (h.Write o line w).1.file =
        (if o.openFails then none
         else some (pathOfIndex h.toConfig o.timeStr (h.currentIndex + 1))) ∧
      (h.Write o line w).1.currentSize =
        (if (h.Write o line w).2.2 = none then (line.length : Int) else 0) ∧
      (o.openFails = true →
        (h.Write o line w).2.1 = w ∧ (h.Write o line w).2.2 = some Error.ErrInvalid) ∧
      (o.openFails = false → ∀ q : String, (h.Write o line w).2.1.content q =
        if q = pathOfIndex h.toConfig o.timeStr (h.currentIndex + 1) then
          some ((w.content q).getD [] ++
            (match o.writeFailsAfter with
             | none => line
             | some n => line.take n))
        else w.content q)) ∧
    (¬ (h.currentSize + (line.length : Int) ≥ h.MaxFileSize) →
      h.rotateIfFull o line w = (h, w) ∧
      (h.Write o line w).1.file = h.file ∧
      (h.Write o line w).2.1 = (fileWrite h.file o line w).1 ∧
      (h.Write o line w).1.currentSize =
        h.currentSize + (if (h.Write o line w).2.2 = none then (line.length : Int) else 0)) := by
  have hinc := incrIndex_eq h.currentIndex hlo hhi
  by_cases hc : h.currentSize + (line.length : Int) ≥ h.MaxFileSize
  · have hr : h.shouldRotate line = true := by simp [FileHook.shouldRotate, hc]
    have hland := Write_rotating_lands h o line w hr
    rw [hinc] at hland
    have hidx : (h.Write o line w).1.currentIndex = h.currentIndex + 1 := by
      cases ho : o.openFails <;> cases hw : o.writeFailsAfter <;>
        simp [FileHook.Write, FileHook.rotateIfFull, hr, FileHook.openFile, ho, fileWrite, hw,
          hinc]
    refine ⟨by simp [hr, hc], by simp [hidx, hc], by simp [hidx, hc], ?_, fun hn => absurd hc hn⟩
    intro _
    refine ⟨?_, ?_, ?_, ?_, hland.1, hland.2⟩
    · cases ho : o.openFails <;> simp [FileHook.rotateIfFull, hr, FileHook.openFile, ho]
    · cases ho : o.openFails <;> simp [FileHook.rotateIfFull, hr, FileHook.openFile, ho, hinc]
    · cases ho : o.openFails <;> cases hw : o.writeFailsAfter <;>
        simp [FileHook.Write, FileHook.rotateIfFull, hr, FileHook.openFile, ho, fileWrite, hw,
          hinc, getCurrentFileName_eq]
    · simp only [FileHook.Write, FileHook.rotateIfFull, hr, if_true, FileHook.openFile,
        fileWrite]
      cases ho : o.openFails <;> cases hw : o.writeFailsAfter <;> simp
  · have hr : h.shouldRotate line = false := by simp [FileHook.shouldRotate, hc]
    refine ⟨by simp [hr, hc], ?_, ?_, fun hp => absurd hp hc, ?_⟩
    · simp only [hc, iff_false]
      simp only [FileHook.Write, FileHook.rotateIfFull, hr]
      split <;> simp
    · simp only [hc, not_false_eq_true, iff_true]
      simp only [FileHook.Write, FileHook.rotateIfFull, hr]
      split <;> simp
    · intro _
      refine ⟨by simp [FileHook.rotateIfFull, hr], ?_, ?_, ?_⟩
      · simp only [FileHook.Write, FileHook.rotateIfFull, hr]
        split <;> simp
      · simp only [FileHook.Write, FileHook.rotateIfFull, hr]
        split <;> simp
      · cases hf : h.file <;> cases hw : o.writeFailsAfter <;>
          simp [FileHook.Write, FileHook.rotateIfFull, hr, fileWrite, hf, hw]

/-- Witness of C1 (amended): the hook with 8 bytes at index 1 under a limit of 10
receives a record of 3 bytes, every system call succeeding. -/
theorem Write_rotates_iff_witness :
    (-(2 ^ 63) ≤ busyHook.currentIndex ∧ busyHook.currentIndex < 2 ^ 63 - 1) ∧
    (busyHook.shouldRotate (bytes "abc") = true ↔ busyHook.currentSize + ((bytes "abc").length : Int) ≥ busyHook.MaxFileSize) ∧
    ((busyHook.Write (Outcome.ok "20240615") (bytes "abc") busyWorld).1.currentIndex = busyHook.currentIndex + 1 ↔
      busyHook.currentSize + ((bytes "abc").length : Int) ≥ busyHook.MaxFileSize) ∧
    ((busyHook.Write (Outcome.ok "20240615") (bytes "abc") busyWorld).1.currentIndex = busyHook.currentIndex ↔
      ¬ (busyHook.currentSize + ((bytes "abc").length : Int) ≥ busyHook.MaxFileSize)) ∧
    (busyHook.currentSize + ((bytes "abc").length : Int) ≥ busyHook.MaxFileSize →
      (busyHook.rotateIfFull (Outcome.ok "20240615") (bytes "abc") busyWorld).1.currentSize = 0 ∧
      (busyHook.rotateIfFull (Outcome.ok "20240615") (bytes "abc") busyWorld).1.currentIndex = busyHook.currentIndex + 1 ∧
      (busyHook.Write (Outcome.ok "20240615") (bytes "abc") busyWorld).1.file =
        (if (Outcome.ok "20240615").openFails then none
         else some (pathOfIndex busyHook.toConfig (Outcome.ok "20240615").timeStr (busyHook.currentIndex + 1))) ∧
      (busyHook.Write (Outcome.ok "20240615") (bytes "abc") busyWorld).1.currentSize =
        (if (busyHook.Write (Outcome.ok "20240615") (bytes "abc") busyWorld).2.2 = none then ((bytes "abc").length : Int) else 0) ∧
      ((Outcome.ok "20240615").openFails = true →
        (busyHook.Write (Outcome.ok "20240615") (bytes "abc") busyWorld).2.1 = busyWorld ∧ (busyHook.Write (Outcome.ok "20240615") (bytes "abc") busyWorld).2.2 = some Error.ErrInvalid) ∧
      ((Outcome.ok "20240615").openFails = false → ∀ q : String, (busyHook.Write (Outcome.ok "20240615") (bytes "abc") busyWorld).2.1.content q =
        if q = pathOfIndex busyHook.toConfig (Outcome.ok "20240615").timeStr (busyHook.currentIndex + 1) then
          some ((busyWorld.content q).getD [] ++
            (match (Outcome.ok "20240615").writeFailsAfter with
             | none => (bytes "abc")
             | some n => (bytes "abc").take n))
        else busyWorld.content q)) ∧
    (¬ (busyHook.currentSize + ((bytes "abc").length : Int) ≥ busyHook.MaxFileSize) →
      busyHook.rotateIfFull (Outcome.ok "20240615") (bytes "abc") busyWorld = (busyHook, busyWorld) ∧
      (busyHook.Write (Outcome.ok "20240615") (bytes "abc") busyWorld).1.file = busyHook.file ∧
      (busyHook.Write (Outcome.ok "20240615") (bytes "abc") busyWorld).2.1 = (fileWrite busyHook.file (Outcome.ok "20240615") (bytes "abc") busyWorld).1 ∧
      (busyHook.Write (Outcome.ok "20240615") (bytes "abc") busyWorld).1.currentSize =
        busyHook.currentSize + (if (busyHook.Write (Outcome.ok "20240615") (bytes "abc") busyWorld).2.2 = none then ((bytes "abc").length : Int) else 0)) :=
  ⟨by decide, Write_rotates_iff busyHook (Outcome.ok "20240615") (bytes "abc") busyWorld
    (by decide) (by decide) (by decide) (by decide)⟩

/-! ## Write: records at least as long as the limit -/

/-- C20 fails when the file of the new index already holds data: a hook at index 1
under a limit of 10 bytes receives a record of 12 bytes while
`./log/file.log.20240615.2` holds the four bytes "OLD ".  The call rotates and appends
to that file, the next call rotates to another file, and the file holding the record
holds "OLD " followed by the record, not the record alone. -/
theorem long_record_follows_old_content :
    0 ≤ (hookAt 1).currentSize ∧
    (longRecord.length : Int) ≥ (hookAt 1).MaxFileSize ∧
    ((hookAt 1).Write (Outcome.ok "20240615") longRecord occupiedWorld).2.2 = none ∧
    ((hookAt 1).Write (Outcome.ok "20240615") longRecord occupiedWorld).1.file =
      some "./log/file.log.20240615.2" ∧
    (((hookAt 1).Write (Outcome.ok "20240615") longRecord occupiedWorld).1.Write
        (Outcome.ok "20240615") (bytes "x")
        ((hookAt 1).Write (Outcome.ok "20240615") longRecord occupiedWorld).2.1).2.1.content
      "./log/file.log.20240615.2" = some (bytes "OLD " ++ longRecord) ∧
    (((hookAt 1).Write (Outcome.ok "20240615") longRecord occupiedWorld).1.Write
        (Outcome.ok "20240615") (bytes "x")
        ((hookAt 1).Write (Outcome.ok "20240615") longRecord occupiedWorld).2.1).2.1.content
      "./log/file.log.20240615.2" ≠ some longRecord := by
  decide

/-- C20 (amended): for every state with `currentSize >= 0` and `currentIndex` a value
of `int` below 2 ^ 63 - 2, and every record at least as long as `MaxFileSize`, `Write`
rotates before appending it, also when `currentSize = 0`: the index is incremented and,
the open and the append succeeding, the record goes at the end of the file of the new
index.  The next call of `Write`, for any record and any outcome of its system calls,
rotates again: it increments the index once more, its handle is not that file and it
leaves that file as it is.  The file thus holds what it held when it was opened
followed by that record alone; when no file of the new index existed before the call,
it holds that record and nothing else. -/
theorem long_record_isolated (h : FileHook) (o1 o2 : Outcome) (line line2 : List UInt8)
    (w : World) (hlo : -(2 ^ 63) ≤ h.currentIndex) (hhi : h.currentIndex < 2 ^ 63 - 2)
    (hsize : 0 ≤ h.currentSize) (hlen : (line.length : Int) ≥ h.MaxFileSize)
    (hopen : o1.openFails = false) (hwrite : o1.writeFailsAfter = none) :
    h.shouldRotate line = true ∧
    (h.Write o1 line w).1.currentIndex = h.currentIndex + 1 ∧
    (h.Write o1 line w).1.file =
      some (pathOfIndex h.toConfig o1.timeStr (h.currentIndex + 1)) ∧
    (h.Write o1 line w).2.2 = none ∧
    (h.Write o1 line w).2.1.content (pathOfIndex h.toConfig o1.timeStr (h.currentIndex + 1)) =
      some ((w.content (pathOfIndex h.toConfig o1.timeStr (h.currentIndex + 1))).getD [] ++ line) ∧
    (h.Write o1 line w).1.shouldRotate line2 = true ∧
    ((h.Write o1 line w).1.Write o2 line2 (h.Write o1 line w).2.1).1.currentIndex =
      h.currentIndex + 2 ∧
    ((h.Write o1 line w).1.Write o2 line2 (h.Write o1 line w).2.1).1.file ≠
      some (pathOfIndex h.toConfig o1.timeStr (h.currentIndex + 1)) ∧
    ((h.Write o1 line w).1.Write o2 line2 (h.Write o1 line w).2.1).2.1.content
        (pathOfIndex h.toConfig o1.timeStr (h.currentIndex + 1)) =
      some ((w.content (pathOfIndex h.toConfig o1.timeStr (h.currentIndex + 1))).getD [] ++ line) ∧
    (w.content (pathOfIndex h.toConfig o1.timeStr (h.currentIndex + 1)) = none →
      ((h.Write o1 line w).1.Write o2 line2 (h.Write o1 line w).2.1).2.1.content
          (pathOfIndex h.toConfig o1.timeStr (h.currentIndex + 1)) = some line) := by
  have hrot : h.shouldRotate line = true := by
    simp only [FileHook.shouldRotate, decide_eq_true_eq]; omega
  have hinc := incrIndex_eq h.currentIndex hlo (by omega)
  have hinc2 := incrIndex_eq (h.currentIndex + 1) (by omega) (by omega)
  have hW := Write_rotating_ok h o1 line w hrot hopen hwrite
  rw [hinc] at hW
  have hcontent : (h.Write o1 line w).2.1.content
      (pathOfIndex h.toConfig o1.timeStr (h.currentIndex + 1)) =
      some ((w.content (pathOfIndex h.toConfig o1.timeStr (h.currentIndex + 1))).getD [] ++ line) := by
    rw [hW]
    simp [content_append_self, content_linkFile, content_create_self]
  have hrot2 : (h.Write o1 line w).1.shouldRotate line2 = true := by
    rw [hW]
    simp only [FileHook.shouldRotate, decide_eq_true_eq]
    have : (0 : Int) ≤ (line2.length : Int) := Int.ofNat_nonneg _
    omega
  have hcfg : (h.Write o1 line w).1.toConfig = h.toConfig := Write_config h o1 line w
  have hidx : (h.Write o1 line w).1.currentIndex = h.currentIndex + 1 := by rw [hW]
  have hne : pathOfIndex h.toConfig o1.timeStr (h.currentIndex + 1) ≠
      pathOfIndex (h.Write o1 line w).1.toConfig o2.timeStr
        (incrIndex (h.Write o1 line w).1.currentIndex) := by
    rw [hcfg, hidx, hinc2]
    intro e
    have := pathOfIndex_inj _ _ _ _ _ e
    omega
  obtain ⟨s1, s2, s3⟩ := Write_rotating_content (h.Write o1 line w).1 o2 line2
    (h.Write o1 line w).2.1 _ hrot2 hne
  refine ⟨hrot, hidx, by rw [hW], by rw [hW], hcontent, hrot2, ?_, s2, ?_, ?_⟩
  · rw [s3, hidx, hinc2]; omega
  · rw [s1, hcontent]
  · intro hnew
    rw [s1, hcontent, hnew]
    rfl

/-- Witness of C20 (amended): an empty current file at index 1 under a limit of 10
bytes, a record of 12 bytes, then a record of 1 byte. -/
theorem long_record_isolated_witness :
    (hookAt 1).shouldRotate longRecord = true ∧
    ((hookAt 1).Write (Outcome.ok "20240615") longRecord emptyWorld).1.currentIndex = 2 ∧
    (((hookAt 1).Write (Outcome.ok "20240615") longRecord emptyWorld).1.Write
        (Outcome.ok "20240615") (bytes "x")
        ((hookAt 1).Write (Outcome.ok "20240615") longRecord emptyWorld).2.1).2.1.content
      "./log/file.log.20240615.2" = some longRecord ∧
    emptyWorld.content "./log/file.log.20240615.2" = none ∧
    (
    (hookAt 1).shouldRotate longRecord = true ∧
    ((hookAt 1).Write (Outcome.ok "20240615") longRecord emptyWorld).1.currentIndex = (hookAt 1).currentIndex + 1 ∧
    ((hookAt 1).Write (Outcome.ok "20240615") longRecord emptyWorld).1.file =
      some (pathOfIndex (hookAt 1).toConfig (Outcome.ok "20240615").timeStr ((hookAt 1).currentIndex + 1)) ∧
    ((hookAt 1).Write (Outcome.ok "20240615") longRecord emptyWorld).2.2 = none ∧
    ((hookAt 1).Write (Outcome.ok "20240615") longRecord emptyWorld).2.1.content (pathOfIndex (hookAt 1).toConfig (Outcome.ok "20240615").timeStr ((hookAt 1).currentIndex + 1)) =
      some ((emptyWorld.content (pathOfIndex (hookAt 1).toConfig (Outcome.ok "20240615").timeStr ((hookAt 1).currentIndex + 1))).getD [] ++ longRecord) ∧
    ((hookAt 1).Write (Outcome.ok "20240615") longRecord emptyWorld).1.shouldRotate (bytes "x") = true ∧
    (((hookAt 1).Write (Outcome.ok "20240615") longRecord emptyWorld).1.Write (Outcome.ok "20240615") (bytes "x") ((hookAt 1).Write (Outcome.ok "20240615") longRecord emptyWorld).2.1).1.currentIndex =
      (hookAt 1).currentIndex + 2 ∧
    (((hookAt 1).Write (Outcome.ok "20240615") longRecord emptyWorld).1.Write (Outcome.ok "20240615") (bytes "x") ((hookAt 1).Write (Outcome.ok "20240615") longRecord emptyWorld).2.1).1.file ≠
      some (pathOfIndex (hookAt 1).toConfig (Outcome.ok "20240615").timeStr ((hookAt 1).currentIndex + 1)) ∧
    (((hookAt 1).Write (Outcome.ok "20240615") longRecord emptyWorld).1.Write (Outcome.ok "20240615") (bytes "x") ((hookAt 1).Write (Outcome.ok "20240615") longRecord emptyWorld).2.1).2.1.content
        (pathOfIndex (hookAt 1).toConfig (Outcome.ok "20240615").timeStr ((hookAt 1).currentIndex + 1)) =
      some ((emptyWorld.content (pathOfIndex (hookAt 1).toConfig (Outcome.ok "20240615").timeStr ((hookAt 1).currentIndex + 1))).getD [] ++ longRecord) ∧
    (emptyWorld.content (pathOfIndex (hookAt 1).toConfig (Outcome.ok "20240615").timeStr ((hookAt 1).currentIndex + 1)) = none →
      (((hookAt 1).Write (Outcome.ok "20240615") longRecord emptyWorld).1.Write (Outcome.ok "20240615") (bytes "x") ((hookAt 1).Write (Outcome.ok "20240615") longRecord emptyWorld).2.1).2.1.content
          (pathOfIndex (hookAt 1).toConfig (Outcome.ok "20240615").timeStr ((hookAt 1).currentIndex + 1)) = some longRecord)) :=
  ⟨by decide, by decide, by decide, by decide,
    long_record_isolated (hookAt 1) (Outcome.ok "20240615") (Outcome.ok "20240615") longRecord
      (bytes "x") emptyWorld (by decide) (by decide) (by decide) (by decide) rfl rfl⟩


/-! ## dealFormat: six replacements in sequence are one replacement of all tokens -/

theorem replaceToken_cons (x : Char) (new : List Char) (c : Char) (l : List Char)
    (hc : c ≠ '%') : replaceToken x new (c :: l) = c :: replaceToken x new l := by
  cases l with
  | nil => simp [replaceToken]
  | cons b r => simp [replaceToken, hc]

theorem replaceToken_append (x : Char) (new : List Char) (text : List Char) :
    ∀ l : List Char, (∀ c ∈ text, c ≠ '%') →
      replaceToken x new (text ++ l) = text ++ replaceToken x new l := by
  induction text with
  | nil => intro l _; rfl
  | cons c cs ih =>
    intro l hc
    rw [List.cons_append, replaceToken_cons x new c _ (hc c (List.mem_cons_self _ _)),
      ih l (fun d hd => hc d (List.mem_cons_of_mem _ hd)), List.cons_append]

theorem replaceToken_percent (x : Char) (new : List Char) (l : List Char)
    (hl : l.head? ≠ some x) :
    replaceToken x new ('%' :: l) = '%' :: replaceToken x new l := by
  cases l with
  | nil => simp [replaceToken]
  | cons b r =>
    have hb : b ≠ x := fun e => hl (by simp [e])
    simp [replaceToken, hb]

theorem substTokens_cons (T : List (Char × List Char)) (c : Char) (l : List Char)
    (hc : c ≠ '%') : substTokens T (c :: l) = c :: substTokens T l := by
  cases l with
  | nil => simp [substTokens]
  | cons b r => simp [substTokens, hc]

theorem substTokens_nil_table (n : Nat) : ∀ l : List Char, l.length ≤ n → substTokens [] l = l := by
  induction n with
  | zero =>
    intro l hl
    have : l = [] := List.length_eq_zero.1 (by omega)
    subst this
    rfl
  | succ n ih =>
    intro l hl
    match l with
    | [] => rfl
    | [a] => rfl
    | a :: b :: rest =>
      have h1 : substTokens [] (b :: rest) = b :: rest := ih _ (by simp at hl ⊢; omega)
      by_cases ha : a = '%'
      · simp [substTokens, ha, h1, List.lookup]
      · simp [substTokens, ha, h1]

theorem lookup_mem (T : List (Char × List Char)) (k : Char) (text : List Char)
    (h : T.lookup k = some text) : ∃ e ∈ T, e.2 = text := by
  induction T with
  | nil => simp [List.lookup] at h
  | cons e T ih =>
    obtain ⟨k1, t1⟩ := e
    rw [List.lookup_cons] at h
    split at h
    · exact ⟨(k1, t1), List.mem_cons_self _ _, Option.some.inj h⟩
    · obtain ⟨e, he, h2⟩ := ih h
      exact ⟨e, List.mem_cons_of_mem _ he, h2⟩

theorem substTokens_head (T : List (Char × List Char)) (x : Char) (rest : List Char)
    (hx : x ≠ '%') (hxd : (digitVal x).isSome = false)
    (hT : ∀ e ∈ T, e.2 ≠ [] ∧ ∀ c ∈ e.2, (digitVal c).isSome = true) :
    (substTokens T ('%' :: rest)).head? ≠ some x := by
  cases rest with
  | nil => simp [substTokens, Ne.symm hx]
  | cons b r =>
    simp only [substTokens, if_true]
    cases hl : T.lookup b with
    | none => simp [Ne.symm hx]
    | some text =>
      obtain ⟨e, he, h2⟩ := lookup_mem T b text hl
      obtain ⟨hne, hdig⟩ := hT e he
      rw [h2] at hne hdig
      cases text with
      | nil => exact absurd rfl hne
      | cons c cs =>
        simp only [List.cons_append, List.head?_cons, ne_eq, Option.some.injEq]
        intro hcx
        have := hdig c (List.mem_cons_self _ _)
        rw [hcx, hxd] at this
        exact absurd this (by decide)

theorem replaceToken_substTokens (T : List (Char × List Char)) (x : Char) (new : List Char)
    (hx : x ≠ '%') (hxd : (digitVal x).isSome = false) (hk : T.lookup x = none)
    (hT : ∀ e ∈ T, e.2 ≠ [] ∧ ∀ c ∈ e.2, (digitVal c).isSome = true) (n : Nat) :
    ∀ l : List Char, l.length ≤ n →
      replaceToken x new (substTokens T l) = substTokens (T ++ [(x, new)]) l := by
  have hpct : ∀ c : Char, (digitVal c).isSome = true → c ≠ '%' := by
    intro c hc e
    rw [e] at hc
    exact absurd hc (by decide)
  induction n with
  | zero =>
    intro l hl
    have : l = [] := List.length_eq_zero.1 (by omega)
    subst this
    rfl
  | succ n ih =>
    intro l hl
    match l with
    | [] => rfl
    | [a] => simp [substTokens, replaceToken]
    | a :: b :: rest =>
      have ih1 := ih (b :: rest) (by simp at hl ⊢; omega)
      have ih2 := ih rest (by simp at hl ⊢; omega)
      by_cases ha : a = '%'
      · subst ha
        cases hl1 : T.lookup b with
        | some text =>
          obtain ⟨e, he, h2⟩ := lookup_mem T b text hl1
          obtain ⟨_, hdig⟩ := hT e he
          rw [h2] at hdig
          have hlook : (T ++ [(x, new)]).lookup b = some text := by
            rw [List.lookup_append, hl1]; rfl
          simp only [substTokens, if_true, hl1, hlook]
          rw [replaceToken_append x new text _ (fun c hc => hpct c (hdig c hc)), ih2]
        | none =>
          by_cases hb : b = x
          · subst hb
            have hlook : (T ++ [(b, new)]).lookup b = some new := by
              rw [List.lookup_append, hl1]; simp
            simp only [substTokens, if_true, hl1, hlook]
            rw [substTokens_cons T b rest hx]
            simp only [replaceToken, true_and, if_true]
            rw [ih2]
          · have hlook : (T ++ [(x, new)]).lookup b = none := by
              rw [List.lookup_append, hl1]
              have hbx : (b == x) = false := by simpa using hb
              simp [List.lookup, hbx]
            simp only [substTokens, if_true, hl1, hlook]
            have hhead : (substTokens T (b :: rest)).head? ≠ some x := by
              by_cases hbp : b = '%'
              · subst hbp
                exact substTokens_head T x rest hx hxd hT
              · rw [substTokens_cons T b rest hbp]
                simp [hb]
            rw [replaceToken_percent x new _ hhead, ih1]
      · simp only [substTokens, ha, if_false]
        rw [replaceToken_cons x new a _ ha, ih1]

theorem dealFormatChars_eq (l : List Char) : dealFormatChars l = substTokens layoutTable l := by
  have h0 : replaceToken 'Y' "2006".data l = substTokens [('Y', "2006".data)] l := by
    have := replaceToken_substTokens [] 'Y' "2006".data (by decide) (by decide) rfl
      (by decide) l.length l (le_refl _)
    rw [substTokens_nil_table l.length l (le_refl _)] at this
    exact this
  have h1 := replaceToken_substTokens [('Y', "2006".data)] 'm' "01".data (by decide) (by decide)
    (by decide) (by decide) l.length l (le_refl _)
  have h2 := replaceToken_substTokens [('Y', "2006".data), ('m', "01".data)] 'd' "02".data
    (by decide) (by decide) (by decide) (by decide) l.length l (le_refl _)
  have h3 := replaceToken_substTokens [('Y', "2006".data), ('m', "01".data), ('d', "02".data)]
    'H' "15".data (by decide) (by decide) (by decide) (by decide) l.length l (le_refl _)
  have h4 := replaceToken_substTokens
    [('Y', "2006".data), ('m', "01".data), ('d', "02".data), ('H', "15".data)]
    'M' "04".data (by decide) (by decide) (by decide) (by decide) l.length l (le_refl _)
  have h5 := replaceToken_substTokens
    [('Y', "2006".data), ('m', "01".data), ('d', "02".data), ('H', "15".data), ('M', "04".data)]
    'S' "05".data (by decide) (by decide) (by decide) (by decide) l.length l (le_refl _)
  unfold dealFormatChars
  rw [h0, h1]
  simp only [List.cons_append, List.nil_append] at h2 h3 h4 h5 ⊢
  rw [h2, h3, h4, h5]
  rfl


/-! ## Format on a layout made of the six elements and of plain characters -/

theorem plain_not_digit (a : Char) (ha : isLayoutChar a = false) (d : Char)
    (hd : (digitVal d).isSome = true) : (d == a) = false := by
  simp only [isLayoutChar, Bool.or_eq_false_iff] at ha
  have : d ≠ a := by
    intro e
    rw [e, ha.1] at hd
    exact absurd hd (by decide)
  simpa using this

theorem plain_not_letter (a : Char) (ha : isLayoutChar a = false) (d : Char)
    (hd : d ∈ ['_', 'J', 'M', 'P', 'Z', 'p']) : (d == a) = false := by
  simp only [isLayoutChar, Bool.or_eq_false_iff, decide_eq_false_iff_not] at ha
  have : d ≠ a := by
    intro e
    rw [e] at hd
    exact ha.2 hd
  simpa using this

theorem startsFraction_cons (a : Char) (X : List Char)
    (hfr : startsFraction ('.' :: X) = false) : startsFraction (a :: X) = false := by
  cases X with
  | nil => rfl
  | cons d rest =>
    simp only [startsFraction] at hfr ⊢
    simp only [beq_self_eq_true, Bool.true_or, Bool.true_and] at hfr
    rw [Bool.and_assoc, hfr, Bool.and_false]

theorem formatLayout_plain (t : Time) (a : Char) (X : List Char)
    (ha : isLayoutChar a = false) (h07 : startsWith "07".data X = false)
    (hfr : startsFraction ('.' :: X) = false) :
    formatLayout t (a :: X) 0 = (formatLayout t X 0).map (fun out => a :: out) := by
  have hun : startsUnmodelled (a :: X) = false := by
    simp only [startsUnmodelled, startsWith, startsFraction_cons a X hfr,
      plain_not_letter a ha 'J' (by decide), plain_not_letter a ha 'M' (by decide),
      plain_not_letter a ha 'P' (by decide), plain_not_letter a ha 'p' (by decide),
      plain_not_letter a ha 'Z' (by decide), plain_not_letter a ha '_' (by decide),
      plain_not_digit a ha '0' (by decide), h07, Bool.false_and, Bool.and_false, Bool.or_false,
      Bool.not_false, Bool.and_true]
  have hstd : stdAt (a :: X) = none := by
    simp [stdAt, startsWith,
      plain_not_digit a ha '0' (by decide), plain_not_digit a ha '1' (by decide),
      plain_not_digit a ha '2' (by decide), plain_not_digit a ha '3' (by decide),
      plain_not_digit a ha '4' (by decide), plain_not_digit a ha '5' (by decide)]
  simp [formatLayout, hun, hstd]


theorem formatLayout_token (t : Time) (b : Char) (text : List Char) (X : List Char)
    (hb : layoutTable.lookup b = some text) :
    ∃ value, (valueTable t).lookup b = some value ∧
      formatLayout t (text ++ X) 0 = (formatLayout t X 0).map (fun out => value ++ out) ∧
      startsWith "07".data (text ++ X) = false ∧
      startsFraction ('.' :: (text ++ X)) = false := by
  by_cases hY : b = 'Y'
  · subst hY
    have ht : text = "2006".data := (Option.some.inj hb).symm
    subst ht
    exact ⟨appendInt t.Year 4, rfl,
      by simp [formatLayout, startsUnmodelled, startsWith, startsFraction, stdAt, Time.emit],
      by simp [startsWith], by simp [startsFraction]⟩
  by_cases hm : b = 'm'
  · subst hm
    have ht : text = "01".data := (Option.some.inj hb).symm
    subst ht
    exact ⟨appendInt t.Month 2, rfl,
      by simp [formatLayout, startsUnmodelled, startsWith, startsFraction, stdAt, Time.emit],
      by simp [startsWith], by simp [startsFraction, digitVal]⟩
  by_cases hd : b = 'd'
  · subst hd
    have ht : text = "02".data := (Option.some.inj hb).symm
    subst ht
    exact ⟨appendInt t.Day 2, rfl,
      by simp [formatLayout, startsUnmodelled, startsWith, startsFraction, stdAt, Time.emit],
      by simp [startsWith], by simp [startsFraction, digitVal]⟩
  by_cases hH : b = 'H'
  · subst hH
    have ht : text = "15".data := (Option.some.inj hb).symm
    subst ht
    exact ⟨appendInt t.Hour 2, rfl,
      by simp [formatLayout, startsUnmodelled, startsWith, startsFraction, stdAt, Time.emit],
      by simp [startsWith], by simp [startsFraction]⟩
  by_cases hM : b = 'M'
  · subst hM
    have ht : text = "04".data := (Option.some.inj hb).symm
    subst ht
    exact ⟨appendInt t.Minute 2, rfl,
      by simp [formatLayout, startsUnmodelled, startsWith, startsFraction, stdAt, Time.emit],
      by simp [startsWith], by simp [startsFraction, digitVal]⟩
  by_cases hS : b = 'S'
  · subst hS
    have ht : text = "05".data := (Option.some.inj hb).symm
    subst ht
    exact ⟨appendInt t.Second 2, rfl,
      by simp [formatLayout, startsUnmodelled, startsWith, startsFraction, stdAt, Time.emit],
      by simp [startsWith], by simp [startsFraction, digitVal]⟩
  · exfalso
    have : layoutTable.lookup b = none := by
      have eY : (b == 'Y') = false := by simpa using hY
      have em : (b == 'm') = false := by simpa using hm
      have ed : (b == 'd') = false := by simpa using hd
      have eH : (b == 'H') = false := by simpa using hH
      have eM : (b == 'M') = false := by simpa using hM
      have eS : (b == 'S') = false := by simpa using hS
      simp [layoutTable, List.lookup, eY, em, ed, eH, eM, eS]
    rw [this] at hb
    exact absurd hb (by simp)

theorem valueTable_none (t : Time) (b : Char) (hb : layoutTable.lookup b = none) :
    (valueTable t).lookup b = none := by
  by_cases hY : b = 'Y'
  · subst hY; exact absurd hb (by decide)
  by_cases hm : b = 'm'
  · subst hm; exact absurd hb (by decide)
  by_cases hd : b = 'd'
  · subst hd; exact absurd hb (by decide)
  by_cases hH : b = 'H'
  · subst hH; exact absurd hb (by decide)
  by_cases hM : b = 'M'
  · subst hM; exact absurd hb (by decide)
  by_cases hS : b = 'S'
  · subst hS; exact absurd hb (by decide)
  · have eY : (b == 'Y') = false := by simpa using hY
    have em : (b == 'm') = false := by simpa using hm
    have ed : (b == 'd') = false := by simpa using hd
    have eH : (b == 'H') = false := by simpa using hH
    have eM : (b == 'M') = false := by simpa using hM
    have eS : (b == 'S') = false := by simpa using hS
    simp [valueTable, List.lookup, eY, em, ed, eH, eM, eS]


theorem plain_head_safe (a : Char) (Y : List Char) (ha : isLayoutChar a = false) :
    startsWith "07".data (a :: Y) = false ∧ startsFraction ('.' :: a :: Y) = false := by
  have h0 := plain_not_digit a ha '0' (by decide)
  have h9 := plain_not_digit a ha '9' (by decide)
  have e0 : (a == '0') = false := by
    have : a ≠ '0' := fun e => by rw [e] at h0; exact absurd h0 (by decide)
    simpa using this
  have e9 : (a == '9') = false := by
    have : a ≠ '9' := fun e => by rw [e] at h9; exact absurd h9 (by decide)
    simpa using this
  constructor
  · simp only [startsWith, h0, Bool.false_and]
  · simp only [startsFraction, e0, e9, Bool.or_false, Bool.and_false, Bool.false_and]

theorem substTokens_safe (p : List Char) (hp : otherCharsPlain p = true) :
    startsWith "07".data (substTokens layoutTable p) = false ∧
    startsFraction ('.' :: substTokens layoutTable p) = false := by
  match p with
  | [] => exact ⟨rfl, rfl⟩
  | [a] =>
    have ha : isLayoutChar a = false := by simpa [otherCharsPlain] using hp
    exact plain_head_safe a [] ha
  | a :: b :: rest =>
    by_cases hpc : a = '%'
    · subst hpc
      cases hl : layoutTable.lookup b with
      | some text =>
        obtain ⟨_, _, _, h3, h4⟩ := formatLayout_token ⟨0, 0, 0, 0, 0, 0⟩ b text
          (substTokens layoutTable rest) hl
        simp only [substTokens, if_true, hl]
        exact ⟨h3, h4⟩
      | none =>
        simp only [substTokens, if_true, hl]
        exact plain_head_safe '%' _ (by decide)
    · have ha : isLayoutChar a = false := by
        simp only [otherCharsPlain, hpc, if_false, Bool.and_eq_true, Bool.not_eq_true'] at hp
        exact hp.1
      simp only [substTokens, hpc, if_false]
      exact plain_head_safe a _ ha

theorem formatLayout_substTokens (t : Time) (n : Nat) : ∀ p : List Char, p.length ≤ n →
    otherCharsPlain p = true →
    formatLayout t (substTokens layoutTable p) 0 = some (substTokens (valueTable t) p) := by
  induction n with
  | zero =>
    intro p hl _
    have : p = [] := List.length_eq_zero.1 (by omega)
    subst this
    rfl
  | succ n ih =>
    intro p hl hp
    match p with
    | [] => rfl
    | [a] =>
      have ha : isLayoutChar a = false := by simpa [otherCharsPlain] using hp
      simp only [substTokens]
      rw [formatLayout_plain t a [] ha rfl rfl]
      rfl
    | a :: b :: rest =>
      by_cases hpc : a = '%'
      · subst hpc
        cases hlk : layoutTable.lookup b with
        | some text =>
          have hrest : otherCharsPlain rest = true := by
            simpa [otherCharsPlain, hlk] using hp
          obtain ⟨value, hv, hf, _, _⟩ := formatLayout_token t b text
            (substTokens layoutTable rest) hlk
          simp only [substTokens, if_true, hlk, hv]
          rw [hf, ih rest (by simp at hl ⊢; omega) hrest]
          rfl
        | none =>
          have htail : otherCharsPlain (b :: rest) = true := by
            simpa [otherCharsPlain, hlk] using hp
          obtain ⟨s1, s2⟩ := substTokens_safe (b :: rest) htail
          simp only [substTokens, if_true, hlk, valueTable_none t b hlk]
          rw [formatLayout_plain t '%' _ (by decide) s1 s2,
            ih (b :: rest) (by simp at hl ⊢; omega) htail]
          rfl
      · have hboth : isLayoutChar a = false ∧ otherCharsPlain (b :: rest) = true := by
          simpa [otherCharsPlain, hpc] using hp
        obtain ⟨s1, s2⟩ := substTokens_safe (b :: rest) hboth.2
        simp only [substTokens, hpc, if_false]
        rw [formatLayout_plain t a _ hboth.1 s1 s2,
          ih (b :: rest) (by simp at hl ⊢; omega) hboth.2]
        rfl

/-! ## The period key -/

/-- C14 fails: for the pattern `%Y%m%d-1` on 15 June 2024 the period key is
`20240615-6`, the final 1 being read by `Format` as the month, whereas the pattern
with its tokens replaced and every other character copied is `20240615-1`. -/
theorem periodKey_substitutes_layout_digit :
    periodKey sampleTime "%Y%m%d-1" = some "20240615-6" ∧
    expectedKey sampleTime "%Y%m%d-1" = "20240615-1" ∧
    periodKey sampleTime "%Y%m%d-1" ≠ some (expectedKey sampleTime "%Y%m%d-1") := by
  decide

/-- C14 (amended): for every pattern in which no character outside the tokens %Y, %m,
%d, %H, %M, %S is a digit, an underscore or one of the letters J, M, P, Z, p, and for
every instant t, the period key is the pattern with each token replaced by the year
of t on 4 digits and its month, day, hour, minute, second on 2 digits, every other
character being copied through unchanged. -/
theorem periodKey_plain_pattern (t : Time) (pattern : String)
    (hplain : otherCharsPlain pattern.data = true) :
    periodKey t pattern = some (expectedKey t pattern) := by
  unfold periodKey Time.Format dealFormat expectedKey
  simp only
  rw [dealFormatChars_eq, formatLayout_substTokens t _ _ (le_refl _) hplain]
  rfl

/-- Witness of C14 (amended): the pattern `%Y-%m-%d %H:%M:%S.log` on 15 June 2024. -/
theorem periodKey_plain_pattern_witness :
    periodKey sampleTime "%Y-%m-%d %H:%M:%S.log" = some "2024-06-15 09:05:07.log" ∧
    periodKey sampleTime "%Y-%m-%d %H:%M:%S.log" =
      some (expectedKey sampleTime "%Y-%m-%d %H:%M:%S.log") :=
  ⟨by decide, periodKey_plain_pattern sampleTime "%Y-%m-%d %H:%M:%S.log" (by decide)⟩


/-! ## NewFileHook on an empty Format -/

theorem withDefaults_Format (c : Config) (hfmt : c.Format = "") :
    c.withDefaults.Format = defaultFormat := by
  unfold Config.withDefaults
  simp only
  split_ifs <;> simp_all

theorem Format_default_layout (t : Time) :
    t.Format "20060102" =
      some (String.mk (appendInt t.Year 4 ++ appendInt t.Month 2 ++ appendInt t.Day 2)) := by
  have hd : "20060102".data = ['2', '0', '0', '6', '0', '1', '0', '2'] := rfl
  unfold Time.Format
  rw [hd]
  simp [formatLayout, startsUnmodelled, startsWith, startsFraction, stdAt, Time.emit]

theorem appendInt_ne_nil (x width : Nat) : appendInt x width ≠ [] := by
  unfold appendInt
  intro h
  exact toDigits_ne_nil x (List.append_eq_nil.1 h).2

theorem dealLogFile_Format (now : String → String) (M : String → String → Bool)
    (files : List FileInfo) (h : FileHook) (h0 : h.currentIndex = 0)
    (hf : h.currentFile = none) :
    (h.dealLogFile now M files).Format = dealFormat h.Format := by
  obtain ⟨_, d2, _, _⟩ := dealFiles_invariant M (now (dealFormat h.Format)) files
    { h with Format := dealFormat h.Format } h0 hf
  show ((FileHook.dealFiles { h with Format := dealFormat h.Format } M
    (now (dealFormat h.Format)) files).toConfig).Format = _
  rw [d2]

theorem NewFileHook_hook (now : String → String) (M : String → String → Bool)
    (s : StartOutcome) (c : Config) (w : World) (h0 : FileHook) (w0 : World) (e : Option Error)
    (hnew : NewFileHook now M s c w = Except.ok (h0, w0, e)) :
    h0.Format = dealFormat c.withDefaults.Format ∧
    h0.file = (if s.openFails then none
      else some (h0.getCurrentFileName (now (dealFormat c.withDefaults.Format)))) := by
  unfold NewFileHook at hnew
  simp only at hnew
  cases hp : c.withDefaults.dealPath s with
  | some err => rw [hp] at hnew; exact absurd hnew (by simp)
  | none =>
    rw [hp] at hnew
    simp only [Except.ok.injEq] at hnew
    have hh0 := congrArg Prod.fst hnew
    simp only at hh0
    have hX := dealLogFile_Format now M s.files
      (FileHook.fresh { c.withDefaults with isAP := isAbs c.withDefaults.Path }) rfl rfl
    have hX' : ((FileHook.fresh
        { c.withDefaults with isAP := isAbs c.withDefaults.Path }).dealLogFile now M s.files).Format =
        dealFormat c.withDefaults.Format := hX
    rw [hX'] at hh0
    rw [← hh0]
    unfold FileHook.openFile
    cases ho : s.openFails
    · simp only [Bool.false_eq_true, if_false]
      exact ⟨hX', rfl⟩
    · simp only [if_true]
      exact ⟨hX', trivial⟩

/-- C13 fails: `NewFileHook` on the zero configuration, on 15 June 2024, returns a hook
whose layout is 20060102 and whose period key is 20240615, not the empty string; the
file it opens is `./log/file.log.20240615.1`, not `./log/file.log1`. -/
theorem NewFileHook_zero_config_has_period :
    zeroConfig.Format = "" ∧
    NewFileHook (clockAt sampleTime) regexpMatchString emptyStart zeroConfig emptyWorld =
      Except.ok
        ({ FileHook.fresh
            { Level := 0, Path := "./log", FileName := "file.log", Format := "20060102",
              MaxFileSize := 10485760, IsLevelFile := false, maxAge := 604800000000000,
              isAP := false } with
           currentIndex := 1, file := some "./log/file.log.20240615.1" },
         { files := [("./log/file.log.20240615.1", [])],
           links := [("./log/file.log", "file.log.20240615.1")] },
         none) ∧
    clockAt sampleTime "20060102" = "20240615" ∧
    clockAt sampleTime "20060102" ≠ "" ∧
    (some "./log/file.log.20240615.1" : Option String) ≠ some "./log/file.log1" := by
  refine ⟨rfl, rfl, by decide, by decide, by decide⟩

/-- C13 (amended): an empty `Format` does not disable the period: for every `Config`
whose `Format` is the empty string, `NewFileHook` replaces it by the default
`%Y%m%d`, the layout of the hook is 20060102, its period key is the date of the
instant t as year, month and day (never empty), and the file it opens is named
`baseName.periodKey.index` under `Path`. -/
theorem NewFileHook_empty_format (t : Time) (M : String → String → Bool)
    (s : StartOutcome) (c : Config) (w : World) (h0 : FileHook) (w0 : World) (e : Option Error)
    (hfmt : c.Format = "")
    (hnew : NewFileHook (clockAt t) M s c w = Except.ok (h0, w0, e)) :
    h0.Format = "20060102" ∧
    clockAt t h0.Format =
      String.mk (appendInt t.Year 4 ++ appendInt t.Month 2 ++ appendInt t.Day 2) ∧
    clockAt t h0.Format ≠ "" ∧
    h0.file = (if s.openFails then none
      else some (h0.Path ++ PathSeparator ++ h0.FileName ++ "." ++ clockAt t h0.Format ++ "." ++
        formatInt h0.currentIndex)) := by
  obtain ⟨h1, h2⟩ := NewFileHook_hook (clockAt t) M s c w h0 w0 e hnew
  have hlay : dealFormat c.withDefaults.Format = "20060102" := by
    rw [withDefaults_Format c hfmt]; decide
  rw [hlay] at h1 h2
  have hkey : clockAt t "20060102" =
      String.mk (appendInt t.Year 4 ++ appendInt t.Month 2 ++ appendInt t.Day 2) := by
    unfold clockAt
    rw [Format_default_layout]
    rfl
  have hne : clockAt t "20060102" ≠ "" := by
    rw [hkey]
    intro hcontra
    have hd := congrArg String.data hcontra
    simp only at hd
    exact appendInt_ne_nil t.Year 4 (List.append_eq_nil.1 (List.append_eq_nil.1 hd).1).1
  refine ⟨h1, by rw [h1]; exact hkey, by rw [h1]; exact hne, ?_⟩
  rw [h2, h1]
  unfold FileHook.getCurrentFileName
  rw [if_neg hne]

/-- Witness of C13 (amended): the zero configuration on 15 June 2024, on an existing
empty directory. -/
theorem NewFileHook_empty_format_witness :
    (FileHook.mk
        { Level := 0, Path := "./log", FileName := "file.log", Format := "20060102",
          MaxFileSize := 10485760, IsLevelFile := false, maxAge := 604800000000000,
          isAP := false } 0 1 none (some "./log/file.log.20240615.1")).Format = "20060102" ∧
    clockAt sampleTime
      (FileHook.mk
        { Level := 0, Path := "./log", FileName := "file.log", Format := "20060102",
          MaxFileSize := 10485760, IsLevelFile := false, maxAge := 604800000000000,
          isAP := false } 0 1 none (some "./log/file.log.20240615.1")).Format =
      String.mk (appendInt sampleTime.Year 4 ++ appendInt sampleTime.Month 2 ++
        appendInt sampleTime.Day 2) ∧
    clockAt sampleTime
      (FileHook.mk
        { Level := 0, Path := "./log", FileName := "file.log", Format := "20060102",
          MaxFileSize := 10485760, IsLevelFile := false, maxAge := 604800000000000,
          isAP := false } 0 1 none (some "./log/file.log.20240615.1")).Format ≠ "" ∧
    (FileHook.mk
        { Level := 0, Path := "./log", FileName := "file.log", Format := "20060102",
          MaxFileSize := 10485760, IsLevelFile := false, maxAge := 604800000000000,
          isAP := false } 0 1 none (some "./log/file.log.20240615.1")).file =
      (if emptyStart.openFails then none
        else some ("./log" ++ PathSeparator ++ "file.log" ++ "." ++
          clockAt sampleTime "20060102" ++ "." ++ formatInt 1)) :=
  NewFileHook_empty_format sampleTime regexpMatchString emptyStart zeroConfig emptyWorld
    (FileHook.mk
        { Level := 0, Path := "./log", FileName := "file.log", Format := "20060102",
          MaxFileSize := 10485760, IsLevelFile := false, maxAge := 604800000000000,
          isAP := false } 0 1 none (some "./log/file.log.20240615.1"))
    { files := [("./log/file.log.20240615.1", [])],
      links := [("./log/file.log", "file.log.20240615.1")] }
    none rfl rfl


/-! ## The match test of the scanner and of the sweeper -/

theorem parsePattern_lit (c x : Char) (rest : List Char) (hc : isMeta c = false)
    (hx : x ≠ '?') :
    parsePattern (c :: x :: rest) =
      (parsePattern (x :: rest)).map (fun l => (Atom.lit c, false) :: l) := by
  have h1 : c ≠ '[' := fun e => by rw [e] at hc; exact absurd hc (by decide)
  have h2 : c ≠ '.' := fun e => by rw [e] at hc; exact absurd hc (by decide)
  rw [parsePattern]
  · simp [hc]
  all_goals (intros; simp_all)

theorem parsePattern_dot (x : Char) (rest : List Char) (hx : x ≠ '?') :
    parsePattern ('.' :: x :: rest) =
      (parsePattern (x :: rest)).map (fun l => (Atom.any, false) :: l) := by
  rw [parsePattern]
  all_goals (intros; simp_all)

theorem ordinary_ne_question (c : Char) (hc : isOrdinary c = true) : c ≠ '?' := by
  intro e
  rw [e] at hc
  exact absurd hc (by decide)

theorem parsePattern_ordinary (xs : List Char) (hxs : ∀ c ∈ xs, isOrdinary c = true) :
    parsePattern (xs ++ ".[0-9]?".data) =
      some (xs.map patternAtom ++ [(Atom.any, false), (Atom.digit, true)]) := by
  induction xs with
  | nil => decide
  | cons c xs ih =>
    have ihx := ih (fun d hd => hxs d (List.mem_cons_of_mem _ hd))
    have hc := hxs c (List.mem_cons_self _ _)
    obtain ⟨x, rest, htail, hx⟩ : ∃ x rest, xs ++ ".[0-9]?".data = x :: rest ∧ x ≠ '?' := by
      cases xs with
      | nil => exact ⟨'.', "[0-9]?".data, rfl, by decide⟩
      | cons y ys =>
        exact ⟨y, ys ++ ".[0-9]?".data, rfl,
          ordinary_ne_question y (hxs y (List.mem_cons_of_mem _ (List.mem_cons_self _ _)))⟩
    rw [htail] at ihx
    rw [List.cons_append, htail]
    by_cases hdot : c = '.'
    · subst hdot
      rw [parsePattern_dot x rest hx, ihx]
      simp [patternAtom]
    · have hm : isMeta c = false := by
        simp only [isOrdinary, Bool.or_eq_true, Bool.not_eq_true', beq_iff_eq] at hc
        rcases hc with h | h
        · exact h
        · exact absurd h hdot
      rw [parsePattern_lit c x rest hm hx, ihx]
      simp [patternAtom, hdot]

theorem matchHere_ordinary (xs : List Char) (items : List (Atom × Bool)) (text : List Char)
    (h : matchHere items text = true) :
    matchHere (xs.map patternAtom ++ items) (xs ++ text) = true := by
  induction xs with
  | nil => exact h
  | cons c xs ih =>
    rw [List.map_cons, List.cons_append, List.cons_append]
    by_cases hdot : c = '.'
    · subst hdot
      have hp : patternAtom '.' = (Atom.any, false) := rfl
      rw [hp]
      simp only [matchHere]
      rw [ih]
      simp [Atom.accepts]
    · have hp : patternAtom c = (Atom.lit c, false) := by
        unfold patternAtom
        rw [if_neg hdot]
      rw [hp]
      simp only [matchHere]
      rw [ih]
      simp [Atom.accepts]

theorem matchAnywhere_of_matchHere (p : List (Atom × Bool)) (text : List Char)
    (h : matchHere p text = true) : matchAnywhere p text = true := by
  cases text with
  | nil => exact h
  | cons x xs => simp [matchAnywhere, h]

theorem stripIndex_some (name stem : List Char) (h : stripIndex name = some stem) :
    ∃ ds, name = stem ++ '.' :: ds := by
  unfold stripIndex at h
  have hrev := (List.takeWhile_append_dropWhile (fun c => (digitVal c).isSome) name.reverse).symm
  generalize name.reverse.takeWhile (fun c => (digitVal c).isSome) = tw at h hrev
  split at h
  · rename_i rest hdrop
    split at h
    · exact absurd h (by simp)
    · rw [hdrop] at hrev
      have hname := congrArg List.reverse hrev
      rw [List.reverse_reverse] at hname
      refine ⟨tw.reverse, ?_⟩
      rw [hname, ← Option.some.inj h]
      simp
  · exact absurd h (by simp)

theorem matchStr_eq (baseName periodKey : String) :
    matchStr baseName periodKey = expectedStem baseName periodKey ++ ".[0-9]?" := by
  unfold matchStr expectedStem
  split <;> rfl

theorem expectedStem_ordinary (baseName periodKey : String)
    (hb : ∀ c ∈ baseName.data, isOrdinary c = true)
    (hk : ∀ c ∈ periodKey.data, isOrdinary c = true) :
    ∀ c ∈ (expectedStem baseName periodKey).data, isOrdinary c = true := by
  unfold expectedStem
  split
  · exact hb
  · intro c hc
    simp only [String.data_append, List.mem_append] at hc
    rcases hc with (hc | hc) | hc
    · exact hb c hc
    · have : c = '.' := by simpa using hc
      rw [this]; decide
    · exact hk c hc

theorem named_matches (baseName periodKey name : String)
    (hb : ∀ c ∈ baseName.data, isOrdinary c = true)
    (hk : ∀ c ∈ periodKey.data, isOrdinary c = true)
    (hn : namedForPeriod baseName periodKey name = true) :
    regexpMatchString (matchStr baseName periodKey) name = true := by
  have hs : stripIndex name.data = some (expectedStem baseName periodKey).data := by
    simpa [namedForPeriod] using hn
  obtain ⟨ds, hname⟩ := stripIndex_some _ _ hs
  unfold regexpMatchString
  rw [matchStr_eq, String.data_append,
    parsePattern_ordinary _ (expectedStem_ordinary baseName periodKey hb hk)]
  simp only
  rw [hname]
  apply matchAnywhere_of_matchHere
  apply matchHere_ordinary
  simp [matchHere, Atom.accepts]


/-- C15 fails: under the base name `file.log` and the period key 20240615, the name
`file.log.20240615.tmp` passes the test of the scanner and of the sweeper, although it
is not the expected first part followed by ".<integer>"; a sweep removes the entry
once its age is over. -/
theorem match_is_looser_than_name :
    regexpMatchString (matchStr "file.log" "20240615") tmpEntry.Name = true ∧
    namedForPeriod "file.log" "20240615" tmpEntry.Name = false ∧
    (hookAt 1).removeFiles regexpMatchString "20240615" 605300 [tmpEntry] = [tmpEntry] ∧
    ¬ (regexpMatchString (matchStr "file.log" "20240615") tmpEntry.Name = true ↔
        namedForPeriod "file.log" "20240615" tmpEntry.Name = true) := by
  decide

/-- C15 (amended): for a base name and a period key made of ordinary characters and
dots, an entry whose name, with its trailing ".<integer>" stripped, equals the expected
first part `baseName.periodKey` (`baseName` alone when the period key is empty) passes
the test of the scanner and of the sweeper: `scanEntry` and `sweepEntry` go on to their
directory test, index comparison and age test. -/
theorem named_entry_is_matched (h : FileHook) (timeStr : String) (f : FileInfo) (now : Int)
    (removed : List FileInfo)
    (hb : ∀ c ∈ h.FileName.data, isOrdinary c = true)
    (hk : ∀ c ∈ timeStr.data, isOrdinary c = true)
    (hn : namedForPeriod h.FileName timeStr f.Name = true) :
    regexpMatchString (matchStr h.FileName timeStr) f.Name = true ∧
    FileHook.scanEntry regexpMatchString (matchStr h.FileName timeStr) h f =
      (if f.IsDir then h
       else if parsedIndex f > h.currentIndex then
         { h with currentIndex := parsedIndex f, currentFile := some f }
       else h) ∧
    sweepEntry regexpMatchString (matchStr h.FileName timeStr) h.maxAge now removed f =
      (if f.IsDir then removed
       else if ¬ (f.ModTime + h.maxAge > now) then removed ++ [f]
       else removed) := by
  have hm := named_matches h.FileName timeStr f.Name hb hk hn
  refine ⟨hm, ?_, ?_⟩
  · unfold FileHook.scanEntry
    rw [if_pos hm]
  · unfold sweepEntry
    rw [if_pos hm]

/-- Witness of C15 (amended): the entry `file.log.20240615.3` seen by a hook at index 1
on the period 20240615. -/
theorem named_entry_is_matched_witness :
    regexpMatchString (matchStr (hookAt 1).FileName "20240615") (logEntry 3 4).Name = true ∧
    FileHook.scanEntry regexpMatchString (matchStr (hookAt 1).FileName "20240615") (hookAt 1)
        (logEntry 3 4) =
      (if (logEntry 3 4).IsDir then hookAt 1
       else if parsedIndex (logEntry 3 4) > (hookAt 1).currentIndex then
         { hookAt 1 with currentIndex := parsedIndex (logEntry 3 4),
                         currentFile := some (logEntry 3 4) }
       else hookAt 1) ∧
    sweepEntry regexpMatchString (matchStr (hookAt 1).FileName "20240615") (hookAt 1).maxAge
        605300 [] (logEntry 3 4) =
      (if (logEntry 3 4).IsDir then []
       else if ¬ ((logEntry 3 4).ModTime + (hookAt 1).maxAge > 605300) then [] ++ [logEntry 3 4]
       else []) :=
  named_entry_is_matched (hookAt 1) "20240615" (logEntry 3 4) 605300 []
    (by decide) (by decide) (by decide)

/-! ## Entries whose last component is not a number -/

theorem Atoi_syntax_value (s : String) (h : (Atoi s).2 = some NumError.ErrSyntax) :
    (Atoi s).1 = 0 := by
  unfold Atoi at h ⊢
  simp only at h ⊢
  split
  · rfl
  · rename_i hun
    rw [hun] at h
    simp only at h
    split_ifs at h <;> simp at h
  · rename_i un hun
    rw [hun] at h
    simp only at h
    split_ifs at h <;> simp at h

theorem scan_without_entry (M : String → String → Bool) (p : String) (h : FileHook)
    (pre post : List FileInfo) (f : FileInfo) (h0 : 0 ≤ h.currentIndex)
    (hf : h.currentFile = none) (hidx : parsedIndex f = 0) :
    (pre ++ f :: post).foldl (FileHook.scanEntry M p) h =
      (pre ++ post).foldl (FileHook.scanEntry M p) h := by
  obtain ⟨i0, _, _, _, _⟩ := scan_invariant M p pre pre h (fun g hg => hg) h0
    (by intro g hg; rw [hf] at hg; exact absurd hg (by simp))
  rw [List.foldl_append, List.foldl_cons, List.foldl_append,
    scanEntry_skip M p _ f (fun _ => by rw [hidx]; exact i0)]

/-- C16 fails: the entry `file.log.20240615.tmp`, whose last component `Atoi` rejects
with a syntax error, is handed to `os.Remove` by the sweep once its age is over. -/
theorem unparsed_entry_is_swept :
    (Atoi (lastName tmpEntry.Name)).2 = some NumError.ErrSyntax ∧
    tmpEntry.ModTime + (hookAt 1).maxAge ≤ 605300 ∧
    tmpEntry ∈ (hookAt 1).removeFiles regexpMatchString "20240615" 605300 [tmpEntry] := by
  decide

/-- C16 (amended): an entry whose last component is not a decimal numeral (`Atoi`
returns a syntax error) does not take part in the index and size tracking: the scan on
a fresh hook gives the same hook with or without it.  The sweep does not read the
index: it hands such an entry to `os.Remove` exactly when it is a matching regular
file of the listing whose modification time plus `maxAge` is not after now. -/
theorem syntax_error_entry (M : String → String → Bool) (c : Config) (h : FileHook)
    (timeStr : String) (pre post files : List FileInfo) (f : FileInfo) (now : Int)
    (hsyn : (Atoi (lastName f.Name)).2 = some NumError.ErrSyntax) :
    (FileHook.fresh c).dealFiles M timeStr (pre ++ f :: post) =
      (FileHook.fresh c).dealFiles M timeStr (pre ++ post) ∧
    (f ∈ h.removeFiles M timeStr now files ↔
      f ∈ files ∧ M (matchStr h.FileName timeStr) f.Name = true ∧ f.IsDir = false ∧
        f.ModTime + h.maxAge ≤ now) := by
  have hidx : parsedIndex f = 0 := Atoi_syntax_value _ hsyn
  refine ⟨?_, removeFiles_mem h M timeStr now files f⟩
  unfold FileHook.dealFiles
  simp only
  rw [scan_without_entry M _ (FileHook.fresh c) pre post f (le_refl _) rfl hidx]

/-- Witness of C16 (amended): the entry `file.log.20240615.tmp` between the log files
of index 1 and 2. -/
theorem syntax_error_entry_witness :
    (FileHook.fresh smallConfig).dealFiles regexpMatchString "20240615"
        ([logEntry 1 10] ++ tmpEntry :: [logEntry 2 4]) =
      (FileHook.fresh smallConfig).dealFiles regexpMatchString "20240615"
        ([logEntry 1 10] ++ [logEntry 2 4]) ∧
    (tmpEntry ∈ (hookAt 1).removeFiles regexpMatchString "20240615" 605300
        [logEntry 1 10, tmpEntry, logEntry 2 4] ↔
      tmpEntry ∈ [logEntry 1 10, tmpEntry, logEntry 2 4] ∧
        regexpMatchString (matchStr (hookAt 1).FileName "20240615") tmpEntry.Name = true ∧
        tmpEntry.IsDir = false ∧ tmpEntry.ModTime + (hookAt 1).maxAge ≤ 605300) :=
  syntax_error_entry regexpMatchString smallConfig (hookAt 1) "20240615" [logEntry 1 10]
    [logEntry 2 4] [logEntry 1 10, tmpEntry, logEntry 2 4] tmpEntry 605300 (by decide)


end Logfile
